import Mathlib

/-!
Verification of the UAM (Universal Agent Messaging) protocol core, as
implemented in the TypeScript SDK of this repository.  The development is a
shallow embedding: each Lean definition mirrors one function of the source
(crypto.ts, envelope.ts, address.ts, contact-book.ts, handshake.ts, agent.ts),
with libsodium primitives replaced by a symbolic (Dolev–Yao style) model and
all nondeterminism (UUIDs, nonces, clocks, resolver I/O) passed in explicitly.
Machine integers do not occur; byte values are `Nat` (every byte produced here
is < 256 by construction of the UTF-8 encoder).
-/

namespace UAM

/-! ## JSON values

Model of the JavaScript values that flow through `sortedStringify` /
`canonicalize` (crypto.ts) and `JSON.stringify`.  Objects are association
lists in insertion order (JS objects cannot hold duplicate keys; theorems that
need this carry a `Nodup` hypothesis on the key list).  `null` also stands for
JS `undefined` (both are dropped by `canonicalize`, and neither appears as a
field value in the wire dicts built by the SDK).  Numbers are modeled as
integers: every number the SDK ever serializes is integral, and
`String(n)`/JSON agree with decimal printing on integers. -/

inductive Json where
  | null : Json
  | bool (b : Bool) : Json
  | num (n : Int) : Json
  | str (s : String) : Json
  | arr (items : List Json) : Json
  | obj (fields : List (String × Json)) : Json

/-- Test for the JS `null`/`undefined` cases of the canonicalize filter. -/
def Json.isNull : Json → Bool
  | .null => true
  | _ => false

/-- Hexadecimal digit characters, lowercase, as emitted by JS `JSON.stringify`
for control-character escapes. -/
def hexDigit (n : Nat) : Char :=
  if n < 10 then Char.ofNat (48 + n) else Char.ofNat (87 + n)

/-- Escape of a single character inside a JSON string literal, following the
JS `JSON.stringify` quoting algorithm (ECMA-262 QuoteJSONString): quote and
backslash get two-character escapes, the five named control characters get
their short escapes, other code points below U+0020 get `\u00xx`, and every
other code point — including every non-ASCII code point — is emitted
literally.  (Lone surrogates cannot occur in a Lean `Char`.)  Note this does
NOT reproduce Python's `ensure_ascii=True`, which the source comment claims. -/
def jsEscapeChar (c : Char) : List Char :=
  if c = '"' then ['\\', '"']
  else if c = '\\' then ['\\', '\\']
  else if c.toNat = 8 then ['\\', 'b']
  else if c.toNat = 9 then ['\\', 't']
  else if c.toNat = 10 then ['\\', 'n']
  else if c.toNat = 12 then ['\\', 'f']
  else if c.toNat = 13 then ['\\', 'r']
  else if c.toNat < 32 then ['\\', 'u', '0', '0', hexDigit (c.toNat / 16), hexDigit (c.toNat % 16)]
  else [c]

/-- JSON string literal for `s`, per JS `JSON.stringify`. -/
def jsQuote (s : String) : String :=
  "\"" ++ String.mk (s.data.flatMap jsEscapeChar) ++ "\""

/-- Comma-join, the separator used by compact JSON. -/
def commaJoin (parts : List String) : String :=
  String.intercalate "," parts

/-- Lexicographic comparison of character lists by code point.  JS default
`sort()` compares strings by UTF-16 code units; on BMP characters (every key
the SDK produces is ASCII) code-unit order and code-point order coincide. -/
def charListLe : List Char → List Char → Bool
  | [], _ => true
  | _ :: _, [] => false
  | a :: as, b :: bs =>
      if a.toNat < b.toNat then true
      else if b.toNat < a.toNat then false
      else charListLe as bs

/-- String comparison used for JS default sorting. -/
def strLe (a b : String) : Bool := charListLe a.data b.data

/-- Strict lexicographic comparison of character lists by code point. -/
def charListLt : List Char → List Char → Bool
  | [], [] => false
  | [], _ :: _ => true
  | _ :: _, [] => false
  | a :: as, b :: bs =>
      if a.toNat < b.toNat then true
      else if b.toNat < a.toNat then false
      else charListLt as bs

/-- Strict string comparison in JS code-unit order. -/
def strLt (a b : String) : Bool := charListLt a.data b.data

/-- Key order used by `Object.keys(obj).sort()` in `sortedStringify`. -/
def keyLe (a b : String × String) : Prop := strLe a.1 b.1 = true

instance : DecidableRel keyLe :=
  fun a b => inferInstanceAs (Decidable (strLe a.1 b.1 = true))

/-- Sorting of the (key, already-stringified-value) pairs of an object. -/
def sortByKey (pairs : List (String × String)) : List (String × String) :=
  List.insertionSort keyLe pairs

/-- One `"key":value` fragment of an object body. -/
def emitPair (p : String × String) : String :=
  jsQuote p.1 ++ ":" ++ p.2

mutual
/-- Compact JSON serialization of a value.  With `sortKeys = true` this is
`sortedStringify` of crypto.ts (keys recursively sorted); with
`sortKeys = false` it is native `JSON.stringify` (insertion order), used by
`validateEnvelopeSize`.  The source sorts the keys and then stringifies each
value; here each value is stringified and the (key, string) pairs are then
sorted, which yields the same text since stringification of a value does not
depend on its position. -/
def stringifyValue (sortKeys : Bool) : Json → String
  | .null => "null"
  | .bool b => if b then "true" else "false"
  | .num n => toString n
  | .str s => jsQuote s
  | .arr items => "[" ++ commaJoin (stringifyItems sortKeys items) ++ "]"
  | .obj fields =>
      let pairs := stringifyPairs sortKeys fields
      let ordered := if sortKeys then sortByKey pairs else pairs
      "\x7b" ++ commaJoin (ordered.map emitPair) ++ "\x7d"

/-- Serialization of the items of a JSON array, in order. -/
def stringifyItems (sortKeys : Bool) : List Json → List String
  | [] => []
  | x :: xs => stringifyValue sortKeys x :: stringifyItems sortKeys xs

/-- Serialization of the values of a JSON object's fields, keeping keys. -/
def stringifyPairs (sortKeys : Bool) : List (String × Json) → List (String × String)
  | [] => []
  | (k, v) :: xs => (k, stringifyValue sortKeys v) :: stringifyPairs sortKeys xs
end

/-- Serialization rooted at `sortedStringify` (crypto.ts). -/
def sortedStringify (v : Json) : String := stringifyValue true v

/-- Serialization rooted at native `JSON.stringify` (insertion order). -/
def jsonStringify (v : Json) : String := stringifyValue false v

/-- UTF-8 encoding of one code point, as produced by `TextEncoder`. -/
def utf8Bytes (n : Nat) : List Nat :=
  if n < 128 then [n]
  else if n < 2048 then
    [192 + n / 64, 128 + n % 64]
  else if n < 65536 then
    [224 + n / 4096, 128 + (n / 64) % 64, 128 + n % 64]
  else
    [240 + n / 262144, 128 + (n / 4096) % 64, 128 + (n / 64) % 64, 128 + n % 64]

/-- UTF-8 byte image of a string (`new TextEncoder().encode(s)`). -/
def strBytes (s : String) : List Nat :=
  s.data.flatMap (fun c => utf8Bytes c.toNat)

/-- Field filter of `canonicalize` (crypto.ts): the entry survives unless its
key is literally `"signature"` or its value is null/undefined. -/
def canonKeep (p : String × Json) : Bool :=
  !(p.1 == "signature") && !(p.2.isNull)

/-- Deterministic JSON bytes for signing (`canonicalize`, crypto.ts): drop the
`signature` key and all null/undefined values, then emit the sorted compact
form and UTF-8 encode it. -/
def canonicalize (data : List (String × Json)) : List Nat :=
  strBytes (sortedStringify (Json.obj (data.filter canonKeep)))

/-! ## Symbolic cryptography

Crypto.ts delegates every primitive to libsodium; the primitives themselves
are outside this repository, so they are modeled symbolically.  A keypair is
identified by its seed: the 64-byte Ed25519 signing key and the 32-byte
verify key are both deterministic functions of the seed (the TS code derives
them via `crypto_sign_seed_keypair`), so a single `Nat` id names the pair; a
signing key is the id held secretly, and `verifyKeyOf` is the (injective)
derivation of the public half.  Plaintexts form an algebra `Plain`: the SDK
always encrypts a JSON/UTF-8 byte string, and each constructor stands for one
of the byte-string shapes it produces. -/

/-- Derivation of the verify key from a signing key (`kp.publicKey` from
`crypto_sign_seed_keypair`; equivalently the last 32 bytes of the 64-byte
secret key). -/
def verifyKeyOf (signingKey : Nat) : Nat := signingKey

/-- Plaintexts handled by the SDK: raw user bytes, a contact-card JSON
document, a handshake accept/deny body, or a receipt body. -/
inductive Plain where
  | raw (data : List Nat) : Plain
  | cardJson (address displayName publicKey relay : String) (sigValid : Bool) : Plain
  | acceptJson (address : String) : Plain
  | denyJson (reason : String) : Plain
  | receiptJson (messageId : String) : Plain
  | failJson (reason originalFrom : String) : Plain
deriving DecidableEq, Repr

/-- Ciphertexts: NaCl Box (`crypto_box_easy`, nonce prepended) records the
sender's and recipient's public identities; SealedBox (`crypto_box_seal`)
records only the recipient's. -/
inductive Ciphertext where
  | boxed (plaintext : Plain) (senderPub recipPub : Nat) (nonce : Nat) : Ciphertext
  | sealed (plaintext : Plain) (recipPub : Nat) : Ciphertext
deriving DecidableEq, Repr

/-- Ed25519 detached signature: binds the signed bytes to the signer's public
identity (`crypto_sign_detached`). -/
structure Sig where
  data : List Nat
  signerPub : Nat
deriving DecidableEq, Repr

/-- Signing (`signMessage`, crypto.ts). -/
def signMessage (data : List Nat) (signingKey : Nat) : Sig :=
  ⟨data, verifyKeyOf signingKey⟩

/-- Verification (`verifySignature`, crypto.ts).  The TS function throws
`SignatureVerificationError` on failure; here failure is `false`. -/
def verifySignature (data : List Nat) (signature : Sig) (verifyKey : Nat) : Bool :=
  signature.data == data && signature.signerPub == verifyKey

/-- Box encryption (`encryptPayload`, crypto.ts): converts both Ed25519 keys
to Curve25519 and calls `crypto_box_easy` under a fresh nonce, passed in
explicitly here. -/
def encryptPayload (plaintext : Plain) (senderSigningKey recipientVerifyKey : Nat)
    (nonce : Nat) : Ciphertext :=
  .boxed plaintext (verifyKeyOf senderSigningKey) recipientVerifyKey nonce

/-- Box decryption (`decryptPayload`, crypto.ts): succeeds exactly when the
ciphertext was boxed from the claimed sender to this recipient.  The TS
function throws `DecryptionError` on failure; here failure is `none`. -/
def decryptPayload (c : Ciphertext) (recipientSigningKey senderVerifyKey : Nat) :
    Option Plain :=
  match c with
  | .boxed pt sPub rPub _ =>
      if sPub == senderVerifyKey && rPub == verifyKeyOf recipientSigningKey then some pt
      else none
  | .sealed _ _ => none

/-- SealedBox encryption (`encryptPayloadAnonymous`, crypto.ts). -/
def encryptPayloadAnonymous (plaintext : Plain) (recipientVerifyKey : Nat) : Ciphertext :=
  .sealed plaintext recipientVerifyKey

/-- SealedBox decryption (`decryptPayloadAnonymous`, crypto.ts): recovers the
recipient keypair from the signing key and opens the seal. -/
def decryptPayloadAnonymous (c : Ciphertext) (recipientSigningKey : Nat) : Option Plain :=
  match c with
  | .sealed pt rPub => if rPub == verifyKeyOf recipientSigningKey then some pt else none
  | .boxed _ _ _ _ => none

/-- Wire text standing for the URL-safe-base64 verify key
(`serializeVerifyKey`, crypto.ts). -/
def serializeVerifyKey (verifyKey : Nat) : String :=
  "vk:" ++ toString verifyKey

/-- Digits-to-number helper for the symbolic base64 decoding. -/
def natOfDigits (cs : List Char) : Nat :=
  cs.foldl (fun a c => a * 10 + (c.toNat - 48)) 0

/-- Inverse of `serializeVerifyKey` (`deserializeVerifyKey`, crypto.ts). -/
def deserializeVerifyKey (s : String) : Nat :=
  natOfDigits (s.data.drop 3)

/-- Wire text standing for the serialized form of a plaintext. -/
def plainText : Plain → String
  | .raw data => "raw;" ++ String.intercalate "," (data.map toString)
  | .cardJson address displayName publicKey relay sigValid =>
      "card;" ++ address ++ ";" ++ displayName ++ ";" ++ publicKey ++ ";" ++ relay ++
      (if sigValid then ";1" else ";0")
  | .acceptJson address => "accept;" ++ address
  | .denyJson reason => "deny;" ++ reason
  | .receiptJson messageId => "receipt;" ++ messageId
  | .failJson reason originalFrom => "fail;" ++ reason ++ ";" ++ originalFrom

/-- Wire text standing for the base64 ciphertext column of the envelope. -/
def payloadB64 : Ciphertext → String
  | .boxed pt s r n =>
      "boxed;" ++ plainText pt ++ ";" ++ toString s ++ ";" ++ toString r ++ ";" ++ toString n
  | .sealed pt r => "sealed;" ++ plainText pt ++ ";" ++ toString r

/-- Wire text standing for the base64 signature column of the envelope. -/
def sigB64 (s : Sig) : String :=
  "sig;" ++ String.intercalate "," (s.data.map toString) ++ ";" ++ toString s.signerPub

/-! ## Address grammar (address.ts)

`parseAddress` trims, lowercases, rejects when longer than 128 characters,
and matches
`^([a-z0-9][a-z0-9_-]{0,62}[a-z0-9]|[a-z0-9])::([a-z0-9](?:[a-z0-9.-]{0,253}[a-z0-9])?)$`.
The trim/lowercase below cover the ASCII range: a non-ASCII character can
never help a string match this ASCII-only grammar, so validity is unchanged. -/

/-- Lowercase-ASCII-letter-or-digit class `[a-z0-9]`. -/
def isLowerAlnum (c : Char) : Bool :=
  ('a' ≤ c && c ≤ 'z') || ('0' ≤ c && c ≤ '9')

/-- Whitespace stripped by `trim`. -/
def isWhite (c : Char) : Bool :=
  c == ' ' || c == '\t' || c == '\n' || c == '\r'

/-- Both-ends trim over the character list. -/
def trimChars (cs : List Char) : List Char :=
  ((cs.dropWhile isWhite).reverse.dropWhile isWhite).reverse

/-- ASCII lowercasing (`toLowerCase`). -/
def lowerChar (c : Char) : Char :=
  if 'A' ≤ c && c ≤ 'Z' then Char.ofNat (c.toNat + 32) else c

/-- Split on the two-character separator `::`, leftmost non-overlapping
occurrences, exactly as JS `String.prototype.split("::")`. -/
def splitCC : List Char → List (List Char)
  | [] => [[]]
  | ':' :: ':' :: rest => [] :: splitCC rest
  | c :: rest =>
      match splitCC rest with
      | [] => [[c]]
      | h :: t => (c :: h) :: t

/-- Agent-name alternative of the address regex:
`[a-z0-9][a-z0-9_-]{0,62}[a-z0-9]` or a single `[a-z0-9]`. -/
def validAgent (cs : List Char) : Bool :=
  match cs with
  | [] => false
  | [c] => isLowerAlnum c
  | c :: rest =>
      isLowerAlnum c && cs.length ≤ 64 &&
      (match rest.getLast? with
       | some lastc => isLowerAlnum lastc
       | none => false) &&
      rest.dropLast.all (fun x => isLowerAlnum x || x == '_' || x == '-')

/-- Domain part of the address regex: `[a-z0-9](?:[a-z0-9.-]{0,253}[a-z0-9])?`. -/
def validDomain (cs : List Char) : Bool :=
  match cs with
  | [] => false
  | [c] => isLowerAlnum c
  | c :: rest =>
      isLowerAlnum c && cs.length ≤ 255 &&
      (match rest.getLast? with
       | some lastc => isLowerAlnum lastc
       | none => false) &&
      rest.dropLast.all (fun x => isLowerAlnum x || x == '.' || x == '-')

/-- Validity check of `parseAddress` (address.ts).  The agent and domain
character classes exclude `:`, so the regex matches exactly when the
normalized string splits on `::` into a valid agent and a valid domain.  The
separate `agent.length > 64` re-check of the source is subsumed by the
`{0,62}` bound. -/
def validAddress (raw : String) : Bool :=
  let n := (trimChars raw.data).map lowerChar
  n.length ≤ 128 &&
  (match splitCC n with
   | [a, d] => validAgent a && validDomain d
   | _ => false)

/-! ## Envelope (envelope.ts) -/

/-- Protocol version (`UAM_VERSION`, types.ts). -/
def UAM_VERSION : String := "0.1"

/-- Size cap (`MAX_ENVELOPE_SIZE`, types.ts). -/
def MAX_ENVELOPE_SIZE : Nat := 65536

/-- A signed, encrypted UAM message envelope (interface `MessageEnvelope`).
`payload` and `signature` hold the symbolic objects whose base64 wire text is
given by `payloadB64` / `sigB64`. -/
structure MessageEnvelope where
  uamVersion : String
  messageId : String
  fromAddress : String
  toAddress : String
  timestamp : String
  type : String
  nonce : String
  payload : Ciphertext
  signature : Sig
  threadId : Option String
  replyTo : Option String
  expires : Option String
  mediaType : Option String
  metadata : Option (List (String × Json))
  attachments : Option (List Json)

/-- Optional-field entry helper: present fields contribute one wire entry,
absent (`undefined`) fields contribute none. -/
def optEntry (key : String) (v : Option String) : List (String × Json) :=
  match v with
  | some s => [(key, Json.str s)]
  | none => []

/-- Signature-scope dict (`buildSignableDict`, envelope.ts): wire names, all
required fields, each optional field only when present; excludes `signature`
and `attachments`. -/
def buildSignableDict (e : MessageEnvelope) : List (String × Json) :=
  [("uam_version", Json.str e.uamVersion),
   ("message_id", Json.str e.messageId),
   ("from", Json.str e.fromAddress),
   ("to", Json.str e.toAddress),
   ("timestamp", Json.str e.timestamp),
   ("type", Json.str e.type),
   ("nonce", Json.str e.nonce),
   ("payload", Json.str (payloadB64 e.payload))]
  ++ optEntry "thread_id" e.threadId
  ++ optEntry "reply_to" e.replyTo
  ++ optEntry "expires" e.expires
  ++ optEntry "media_type" e.mediaType
  ++ (match e.metadata with
      | some m => [("metadata", Json.obj m)]
      | none => [])

/-- Wire-format dict (`toWireDict`, envelope.ts): the signable dict plus
`signature` and, when present, `attachments`. -/
def toWireDict (e : MessageEnvelope) : List (String × Json) :=
  buildSignableDict e ++ [("signature", Json.str (sigB64 e.signature))]
  ++ (match e.attachments with
      | some a => [("attachments", Json.arr a)]
      | none => [])

/-- Byte length of the serialized wire JSON (`validateEnvelopeSize` measures
`new TextEncoder().encode(JSON.stringify(wire)).length`). -/
def wireSize (e : MessageEnvelope) : Nat :=
  (strBytes (jsonStringify (Json.obj (toWireDict e)))).length

/-- Envelope signature check (`verifyEnvelope`, envelope.ts): recompute the
canonical bytes of the signable dict and verify. -/
def verifyEnvelope (e : MessageEnvelope) (senderVerifyKey : Nat) : Bool :=
  verifySignature (canonicalize (buildSignableDict e)) e.signature senderVerifyKey

/-- Errors surfaced by `createEnvelope`. -/
inductive EnvelopeError where
  | invalidAddress : EnvelopeError
  | envelopeTooLarge : EnvelopeError
deriving DecidableEq, Repr

/-- Optional inputs of `createEnvelope`. -/
structure EnvelopeOptions where
  threadId : Option String
  replyTo : Option String
  expires : Option String
  mediaType : Option String
  metadata : Option (List (String × Json))
  attachments : Option (List Json)

/-- Empty options (every field omitted). -/
def noOptions : EnvelopeOptions := ⟨none, none, none, none, none, none⟩

/-- Encryption step of `createEnvelope`: SealedBox for `handshake.request`
(the sender may still be anonymous to the recipient), Box otherwise. -/
def encryptStep (messageType : String) (payloadPlaintext : Plain)
    (signingKey recipientVerifyKey : Nat) (boxNonce : Nat) : Ciphertext :=
  if messageType == "handshake.request" then
    encryptPayloadAnonymous payloadPlaintext recipientVerifyKey
  else
    encryptPayload payloadPlaintext signingKey recipientVerifyKey boxNonce

/-- The envelope of `createEnvelope` before its signature is attached
(the source's `tempEnvelope` with the empty-string signature). -/
def unsignedEnvelope (fromAddress toAddress messageType : String)
    (payload : Ciphertext) (options : EnvelopeOptions)
    (messageId nonce timestamp : String) : MessageEnvelope :=
  { uamVersion := UAM_VERSION, messageId := messageId,
    fromAddress := fromAddress, toAddress := toAddress,
    timestamp := timestamp, type := messageType, nonce := nonce,
    payload := payload, signature := ⟨[], 0⟩,
    threadId := options.threadId, replyTo := options.replyTo,
    expires := options.expires, mediaType := options.mediaType,
    metadata := options.metadata, attachments := options.attachments }

/-- Signing step of `createEnvelope`: canonicalize the signable dict, sign
it, and attach the signature (steps 4–5 of the source). -/
def signEnvelope (e : MessageEnvelope) (signingKey : Nat) : MessageEnvelope :=
  { e with signature := signMessage (canonicalize (buildSignableDict e)) signingKey }

/-- Envelope construction (`createEnvelope`, envelope.ts).  The generated
`messageId` (UUID), `nonce` (base64 of 24 random bytes), `timestamp`
(current UTC) and the random Box nonce are explicit arguments.  Steps follow
the source: validate both addresses, encrypt (SealedBox for
`handshake.request`, Box otherwise), sign the canonical signable dict, then
enforce the wire-size cap. -/
def createEnvelope (fromAddress toAddress messageType : String)
    (payloadPlaintext : Plain) (signingKey recipientVerifyKey : Nat)
    (options : EnvelopeOptions) (messageId nonce timestamp : String)
    (boxNonce : Nat) : Except EnvelopeError MessageEnvelope :=
  if !(validAddress fromAddress) then .error .invalidAddress
  else if !(validAddress toAddress) then .error .invalidAddress
  else if wireSize (signEnvelope (unsignedEnvelope fromAddress toAddress messageType
      (encryptStep messageType payloadPlaintext signingKey recipientVerifyKey boxNonce)
      options messageId nonce timestamp) signingKey) ≤ MAX_ENVELOPE_SIZE then
    .ok (signEnvelope (unsignedEnvelope fromAddress toAddress messageType
      (encryptStep messageType payloadPlaintext signingKey recipientVerifyKey boxNonce)
      options messageId nonce timestamp) signingKey)
  else .error .envelopeTooLarge

/-! ## Wire parsing (`fromWireDict`, envelope.ts) -/

/-- Required wire-field names, in the iteration order of
`REQUIRED_WIRE_FIELDS` (a JS `Set` iterates in insertion order). -/
def requiredWireFields : List String :=
  ["uam_version", "message_id", "from", "to", "timestamp", "type", "nonce",
   "payload", "signature"]

/-- Property read `d["k"]` of a wire dict (objects cannot repeat keys). -/
def lookupJ (d : List (String × Json)) (k : String) : Option Json :=
  (d.find? (fun p => p.1 == k)).map (fun p => p.2)

/-- An envelope as restored by `fromWireDict` before any validation of the
individual values: the TS code casts each property and leaves absent
optionals `undefined`. -/
structure WireEnvelope where
  uamVersion : Option Json
  messageId : Option Json
  fromAddress : Option Json
  toAddress : Option Json
  timestamp : Option Json
  type : Option Json
  nonce : Option Json
  payload : Option Json
  signature : Option Json
  threadId : Option Json
  replyTo : Option Json
  expires : Option Json
  mediaType : Option Json
  metadata : Option Json
  attachments : Option Json

/-- Success test for a fallible computation (did `fromWireDict` throw?). -/
def exceptIsOk {ε α : Type} : Except ε α → Bool
  | .ok _ => true
  | .error _ => false

/-- Missing-field collection of `fromWireDict`: walk `REQUIRED_WIRE_FIELDS`
in iteration order and keep the fields absent from the dict's keys. -/
def missingFields (d : List (String × Json)) : List String :=
  requiredWireFields.filter (fun f => !((d.map Prod.fst).contains f))

/-- Restoration from a wire dict (`fromWireDict`, envelope.ts): collect the
missing required fields in `REQUIRED_WIRE_FIELDS` order, sort them, and
raise `InvalidEnvelopeError` listing them; otherwise build the envelope. -/
def fromWireDict (d : List (String × Json)) : Except (List String) WireEnvelope :=
  if (missingFields d).isEmpty then
    .ok { uamVersion := lookupJ d "uam_version", messageId := lookupJ d "message_id",
          fromAddress := lookupJ d "from", toAddress := lookupJ d "to",
          timestamp := lookupJ d "timestamp", type := lookupJ d "type",
          nonce := lookupJ d "nonce", payload := lookupJ d "payload",
          signature := lookupJ d "signature", threadId := lookupJ d "thread_id",
          replyTo := lookupJ d "reply_to", expires := lookupJ d "expires",
          mediaType := lookupJ d "media_type", metadata := lookupJ d "metadata",
          attachments := lookupJ d "attachments" }
  else
    .error (List.insertionSort (fun a b : String => strLe a b = true) (missingFields d))

/-! ## Contact book (contact-book.ts)

The SQLite tables become lists; the timestamp columns `first_seen` /
`last_seen` (set to `datetime('now')` and read by no claim) are elided, and
`pinned_at` takes its timestamp as an argument.  The in-memory caches
`_blockedExact` / `_blockedDomains` are lists with set semantics
(insert-if-absent), built from the durable `blocked_patterns` rows exactly as
`open()` does. -/

/-- One row of the `contacts` table. -/
structure Contact where
  address : String
  publicKey : String
  displayName : Option String
  trustState : String
  trustSource : Option String
  relay : Option String
  relaysJson : Option String
  pinnedAt : Option String
deriving DecidableEq, Repr

/-- The contact book: durable rows plus the two in-memory block caches. -/
structure ContactBook where
  contacts : List Contact
  pending : List (String × Plain)
  blockedPatterns : List String
  blockedExact : List String
  blockedDomains : List String
deriving DecidableEq, Repr

/-- Options of `addContact` (contact-book.ts).  The source serializes the
`relays` array with `JSON.stringify`; the serialized string is taken
directly. -/
structure AddContactOptions where
  displayName : Option String
  trustState : Option String
  trustSource : Option String
  relay : Option String
  relaysJson : Option String
deriving DecidableEq, Repr

/-- Options object with every property omitted. -/
def noContactOptions : AddContactOptions := ⟨none, none, none, none, none⟩

/-- The `ON CONFLICT(address) DO UPDATE` clause of `addContact`:
`public_key`, `display_name` and `trust_state` are overwritten
unconditionally; `trust_source`, `relay` and `relays_json` are COALESCEd
(kept when the new value is null); `pinned_at` is untouched. -/
def updateRow (c : Contact) (publicKey : String) (displayName : Option String)
    (trustState : String) (trustSource relay relaysJson : Option String) : Contact :=
  { c with
    publicKey := publicKey
    displayName := displayName
    trustState := trustState
    trustSource := (match trustSource with | some s => some s | none => c.trustSource)
    relay := (match relay with | some s => some s | none => c.relay)
    relaysJson := (match relaysJson with | some s => some s | none => c.relaysJson) }

/-- Upsert of a contact (`addContact`, contact-book.ts).  The trust state
defaults to `"trusted"` when the option is omitted.  Note: no key-pinning
check of any kind — the stored `public_key` is always overwritten. -/
def addContact (book : ContactBook) (address publicKey : String)
    (options : AddContactOptions) : ContactBook :=
  let displayName := options.displayName
  let trustState := options.trustState.getD "trusted"
  if book.contacts.any (fun c => c.address == address) then
    { book with contacts := book.contacts.map (fun c =>
        if c.address == address then
          updateRow c publicKey displayName trustState
            options.trustSource options.relay options.relaysJson
        else c) }
  else
    { book with contacts := book.contacts ++
        [{ address := address, publicKey := publicKey, displayName := displayName,
           trustState := trustState, trustSource := options.trustSource,
           relay := options.relay, relaysJson := options.relaysJson,
           pinnedAt := none }] }

/-- Public-key lookup (`getPublicKey`). -/
def getPublicKey (book : ContactBook) (address : String) : Option String :=
  (book.contacts.find? (fun c => c.address == address)).map (fun c => c.publicKey)

/-- Trust-state lookup (`getTrustState`). -/
def getTrustState (book : ContactBook) (address : String) : Option String :=
  (book.contacts.find? (fun c => c.address == address)).map (fun c => c.trustState)

/-- TOFU pin (`setPinnedAt`): stamp `pinned_at` and force
`trust_state = 'pinned'` for the row, when it exists. -/
def setPinnedAt (book : ContactBook) (address now : String) : ContactBook :=
  { book with contacts := book.contacts.map (fun c =>
      if c.address == address then { c with trustState := "pinned", pinnedAt := some now }
      else c) }

/-- Trust filter helper (`isTrustedOrVerified`, contact-book.ts), documented
as the convenience helper "for inbound message filtering": true exactly for
`trusted`, `verified` and `pinned`.  (The agent's inbound path does not call
it — see the C2 theorems.) -/
def isTrustedOrVerified (book : ContactBook) (address : String) : Bool :=
  match getTrustState book address with
  | some s => s == "trusted" || s == "verified" || s == "pinned"
  | none => false

/-- Pending-handshake insert (`addPending`, `INSERT OR REPLACE`).  The stored
contact-card JSON string is kept as the `Plain` it serializes. -/
def addPending (book : ContactBook) (address : String) (card : Plain) : ContactBook :=
  if book.pending.any (fun p => p.1 == address) then
    { book with pending := book.pending.map (fun p =>
        if p.1 == address then (address, card) else p) }
  else
    { book with pending := book.pending ++ [(address, card)] }

/-- Cache update for one block pattern (`_cacheBlockPattern`): a `*::`
wildcard feeds the domain cache (prefix stripped), everything else the exact
cache.  JS `Set.add` is idempotent, hence the membership guards. -/
def cacheBlockPattern (caches : List String × List String) (pattern : String) :
    List String × List String :=
  match pattern.data with
  | '*' :: ':' :: ':' :: rest =>
      (caches.1,
       if caches.2.contains (String.mk rest) then caches.2
       else caches.2 ++ [String.mk rest])
  | _ =>
      (if caches.1.contains pattern then caches.1 else caches.1 ++ [pattern], caches.2)

/-- Cache construction at `open()`: fold `_cacheBlockPattern` over every
stored pattern row. -/
def buildBlockCaches (patterns : List String) : List String × List String :=
  patterns.foldl cacheBlockPattern ([], [])

/-- Domain part used by the blocked check: `address.split("::")[1]`. -/
def domainPart (address : String) : String :=
  match (splitCC address.data).drop 1 with
  | d :: _ => String.mk d
  | [] => ""

/-- Block check (`isBlocked`, contact-book.ts): exact-pattern membership
first, then — when the address contains `::` — domain-wildcard membership. -/
def isBlocked (book : ContactBook) (address : String) : Bool :=
  if book.blockedExact.contains address then true
  else
    match (splitCC address.data).drop 1 with
    | d :: _ => book.blockedDomains.contains (String.mk d)
    | [] => false

/-- Durable block insert (`addBlock`): `INSERT OR IGNORE` plus cache update. -/
def addBlock (book : ContactBook) (pattern : String) : ContactBook :=
  let patterns :=
    if book.blockedPatterns.contains pattern then book.blockedPatterns
    else book.blockedPatterns ++ [pattern]
  let caches := cacheBlockPattern (book.blockedExact, book.blockedDomains) pattern
  { book with
    blockedPatterns := patterns
    blockedExact := caches.1
    blockedDomains := caches.2 }

/-! ## Handshake manager and agent inbound pipeline (handshake.ts, agent.ts)

The transport is abstracted to an event trace: `Event.sent t` records one
envelope of type `t` handed to `transport.send` (the construction of those
outbound envelopes succeeds in the model; their contents are not needed by
any claim).  `Event.sigVerify` / `Event.decryptOp` record that signature
verification / payload decryption was executed on the inbound envelope, which
makes ordering claims ("blocked before crypto") provable.  The resolver is an
oracle `String → Option String` (`none` = the resolver threw, which
`_processInbound` catches and turns into a silent drop).  Errors that the TS
inbox path does NOT catch (`DecryptionError` from the sealed handshake
payload, card parse/verify failures) propagate as `Except.error`. -/

/-- Observable actions of the inbound pipeline. -/
inductive Event where
  | sigVerify : Event
  | decryptOp : Event
  | sent (msgType : String) : Event
deriving DecidableEq, Repr

/-- Exceptions that escape `_processInbound`. -/
inductive PipeError where
  | decryptionError : PipeError
  | invalidCard : PipeError
deriving DecidableEq, Repr

instance instDecEqExcept {ε α : Type} [DecidableEq ε] [DecidableEq α] :
    DecidableEq (Except ε α) := fun a b =>
  match a, b with
  | .error e1, .error e2 =>
      if h : e1 = e2 then isTrue (congrArg Except.error h)
      else isFalse (fun hh => h (Except.error.inj hh))
  | .ok v1, .ok v2 =>
      if h : v1 = v2 then isTrue (congrArg Except.ok h)
      else isFalse (fun hh => h (Except.ok.inj hh))
  | .error _, .ok _ => isFalse (fun hh => Except.noConfusion hh)
  | .ok _, .error _ => isFalse (fun hh => Except.noConfusion hh)

/-- Mutable agent state threaded through the pipeline, plus the oracles. -/
structure AgentState where
  book : ContactBook
  trustPolicy : String
  signingKey : Nat
  address : String
  nowStr : String
  resolver : String → Option String

/-- A decrypted, verified inbound message (`ReceivedMessage`, message.ts).
`content` is the decrypted plaintext (the TS field holds its UTF-8 text). -/
structure ReceivedMessage where
  messageId : String
  fromAddress : String
  toAddress : String
  content : Plain
  timestamp : String
  type : String
  threadId : Option String
  replyTo : Option String
  mediaType : Option String
  verified : Bool
deriving DecidableEq, Repr

/-- Inbound `handshake.request` handler (`_handleRequest`, handshake.ts):
open the SealedBox with the agent's own signing key, parse and verify the
embedded contact card, then branch on the trust policy: auto-accept stores
the contact as provisional and emits `handshake.accept`; allowlist-only
emits `handshake.deny`; any other policy stores the card in the pending
queue.  Decryption and card failures are NOT caught by the caller. -/
def handleRequest (st : AgentState) (e : MessageEnvelope) :
    Except PipeError (AgentState × List Event) :=
  match decryptPayloadAnonymous e.payload st.signingKey with
  | none => .error .decryptionError
  | some plain =>
      match plain with
      | .cardJson cardAddress cardDisplayName cardPublicKey _cardRelay sigValid =>
          if !sigValid then .error .invalidCard
          else if st.trustPolicy == "auto-accept" then
            let book := addContact st.book cardAddress cardPublicKey
              ⟨some cardDisplayName, some "provisional", some "auto-accepted-provisional",
               none, none⟩
            .ok ({ st with book := book }, [Event.sent "handshake.accept"])
          else if st.trustPolicy == "allowlist-only" then
            .ok (st, [Event.sent "handshake.deny"])
          else
            .ok ({ st with book := addPending st.book e.fromAddress plain }, [])
      | _ => .error .invalidCard

/-- Inbound `handshake.accept` handler (`_handleAccept`, handshake.ts): store
the sender under the verify key that authenticated the envelope, with trust
state pinned, and stamp `pinned_at`.  (No comparison against any previously
stored key.) -/
def handleAccept (st : AgentState) (e : MessageEnvelope) (senderVk : Nat) : AgentState :=
  let pkStr := serializeVerifyKey senderVk
  let book1 := addContact st.book e.fromAddress pkStr
    ⟨none, some "pinned", none, none, none⟩
  { st with book := setPinnedAt book1 e.fromAddress st.nowStr }

/-- Inbound handshake dispatch (`handleInbound`, handshake.ts).  Handshake
messages are never user-visible: the result is always `none`.
`handshake.deny` is logged silently. -/
def handleInbound (st : AgentState) (e : MessageEnvelope) (senderVk : Nat) :
    Except PipeError (Option ReceivedMessage × AgentState × List Event) :=
  if e.type == "handshake.request" then
    match handleRequest st e with
    | .error pe => .error pe
    | .ok (st2, evs) => .ok (none, st2, evs)
  else if e.type == "handshake.accept" then
    .ok (none, handleAccept st e senderVk, [])
  else
    .ok (none, st, [])

/-- Single-envelope inbound processing (`_processInbound`, agent.ts):
block-list gate before any crypto; sender-key lookup (contact book, then
resolver, silent drop on resolver failure); signature verification (silent
drop on failure); internal routing for the three handshake types; the trust
gate for every other type under non-auto-accept policies (note: it accepts
only `trusted` and `verified` — not `pinned`); Box decryption (silent drop on
failure); finally the frozen `ReceivedMessage`. -/
def processInbound (st : AgentState) (e : MessageEnvelope) :
    Except PipeError (Option ReceivedMessage × AgentState × List Event) :=
  if isBlocked st.book e.fromAddress then .ok (none, st, [])
  else
    match (match getPublicKey st.book e.fromAddress with
           | some s => some s
           | none => st.resolver e.fromAddress) with
    | none => .ok (none, st, [])
    | some senderPkStr =>
      if !(verifyEnvelope e (deserializeVerifyKey senderPkStr)) then
        .ok (none, st, [Event.sigVerify])
      else if e.type == "handshake.request" || e.type == "handshake.accept"
              || e.type == "handshake.deny" then
        match handleInbound st e (deserializeVerifyKey senderPkStr) with
        | .error pe => .error pe
        | .ok (res, st2, evs) => .ok (res, st2, Event.sigVerify :: evs)
      else if st.trustPolicy != "auto-accept"
              && !(match getTrustState st.book e.fromAddress with
                   | some t => t == "trusted" || t == "verified"
                   | none => false) then
        .ok (none, st, [Event.sigVerify])
      else
        match decryptPayload e.payload st.signingKey (deserializeVerifyKey senderPkStr) with
        | none => .ok (none, st, [Event.sigVerify, Event.decryptOp])
        | some plain =>
            .ok (some { messageId := e.messageId, fromAddress := e.fromAddress,
                        toAddress := e.toAddress, content := plain,
                        timestamp := e.timestamp, type := e.type,
                        threadId := e.threadId, replyTo := e.replyTo,
                        mediaType := e.mediaType, verified := true },
                 st, [Event.sigVerify, Event.decryptOp])

/-- Anti-loop test of `_sendReadReceipt`: does the type start with
`receipt.`, `handshake.` or `session.`? -/
def protocolPrefixed (t : String) : Bool :=
  "receipt.".data.isPrefixOf t.data
  || "handshake.".data.isPrefixOf t.data
  || "session.".data.isPrefixOf t.data

/-- Read-receipt emission (`_sendReadReceipt`, agent.ts): the anti-loop guard
suppresses any type with a `receipt.`, `handshake.` or `session.` prefix;
otherwise a `receipt.read` envelope is built for the sender's stored key and
sent (fire-and-forget; no stored key means no send). -/
def sendReadReceipt (st : AgentState) (m : ReceivedMessage) : List Event :=
  if protocolPrefixed m.type then []
  else
    match getPublicKey st.book m.fromAddress with
    | none => []
    | some _ => [Event.sent "receipt.read"]

/-- One iteration of the `inbox` loop (agent.ts): process the envelope; when
a message is returned, append it to the results and fire the read receipt. -/
def inboxStep (st : AgentState) (e : MessageEnvelope) :
    Except PipeError (List ReceivedMessage × AgentState × List Event) :=
  match processInbound st e with
  | .error pe => .error pe
  | .ok (none, st2, tr) => .ok ([], st2, tr)
  | .ok (some m, st2, tr) => .ok ([m], st2, tr ++ sendReadReceipt st2 m)

/-- The `inbox` loop over the envelopes returned by `transport.receive`
(the expired-pending sweep, which emits only `receipt.failed`, is not
modeled).  An uncaught exception aborts the whole poll, as in the source. -/
def runInbox (st : AgentState) :
    List MessageEnvelope → Except PipeError (List ReceivedMessage × AgentState × List Event)
  | [] => .ok ([], st, [])
  | e :: rest =>
      match inboxStep st e with
      | .error pe => .error pe
      | .ok (out, st2, tr) =>
          match runInbox st2 rest with
          | .error pe => .error pe
          | .ok (outs, st3, trs) => .ok (out ++ outs, st3, tr ++ trs)

/-! ## Concrete fixtures used by evaluation and witness theorems -/

/-- Envelope skeleton with trivial optionals (signature filled separately). -/
def mkEnv (fromA toA ty : String) (payload : Ciphertext) : MessageEnvelope :=
  { uamVersion := UAM_VERSION, messageId := "m1", fromAddress := fromA,
    toAddress := toA, timestamp := "2026-01-01T00:00:00.000Z", type := ty,
    nonce := "n1", payload := payload, signature := ⟨[], 0⟩,
    threadId := none, replyTo := none, expires := none, mediaType := none,
    metadata := none, attachments := none }

/-- Contact book holding one pinned contact for `mallory::evil` under key
`vk:1`. -/
def pinnedBook : ContactBook :=
  { contacts := [{ address := "mallory::evil", publicKey := "vk:1",
                   displayName := none, trustState := "pinned",
                   trustSource := some "explicit-approval", relay := none,
                   relaysJson := none, pinnedAt := some "2025-12-01T00:00:00.000Z" }],
    pending := [], blockedPatterns := [], blockedExact := [], blockedDomains := [] }

/-- Agent state around `pinnedBook`, trust policy `approval-required`, own
keypair id 1, resolver that always fails. -/
def pinnedState : AgentState :=
  { book := pinnedBook, trustPolicy := "approval-required", signingKey := 1,
    address := "me::relay", nowStr := "2026-01-02T00:00:00.000Z",
    resolver := fun _ => none }

/-- A well-signed, decryptable `message` envelope from the pinned contact
(sender keypair id 1 is read from `serializeVerifyKey`: `pinnedBook` stores
`"vk:1"`). -/
def pinnedMsgEnv : MessageEnvelope :=
  signEnvelope (mkEnv "mallory::evil" "me::relay" "message"
    (encryptPayload (.raw [104, 105]) 1 (verifyKeyOf 1) 7)) 1

/-- A `handshake.accept` envelope from the pinned contact, as authenticated
under a NEW verify key 2 (the key-substitution scenario of TOFU). -/
def pinnedAcceptEnv : MessageEnvelope :=
  signEnvelope (mkEnv "mallory::evil" "me::relay" "handshake.accept"
    (encryptPayload (.acceptJson "mallory::evil") 2 (verifyKeyOf 1) 8)) 2

/-- Contact book holding one `trusted` contact for `bob::relay` under key
`vk:2`. -/
def trustedBook : ContactBook :=
  { contacts := [{ address := "bob::relay", publicKey := "vk:2",
                   displayName := some "Bob", trustState := "trusted",
                   trustSource := some "explicit-approval", relay := none,
                   relaysJson := none, pinnedAt := none }],
    pending := [], blockedPatterns := [], blockedExact := [], blockedDomains := [] }

/-- Agent state around `trustedBook`, policy `approval-required`, own key 1. -/
def trustedState : AgentState :=
  { book := trustedBook, trustPolicy := "approval-required", signingKey := 1,
    address := "me::relay", nowStr := "2026-01-02T00:00:00.000Z",
    resolver := fun _ => none }

/-- A well-signed, decryptable `receipt.delivered` envelope from the trusted
contact. -/
def receiptEnv : MessageEnvelope :=
  signEnvelope (mkEnv "bob::relay" "me::relay" "receipt.delivered"
    (encryptPayload (.receiptJson "m0") 2 (verifyKeyOf 1) 9)) 2

/-- A well-signed `handshake.deny` envelope from the trusted contact. -/
def denyEnv : MessageEnvelope :=
  signEnvelope (mkEnv "bob::relay" "me::relay" "handshake.deny"
    (encryptPayload (.denyJson "allowlist-only") 2 (verifyKeyOf 1) 10)) 2

/-- The `ReceivedMessage` that `_processInbound` produces for `receiptEnv`. -/
def receiptMsg : ReceivedMessage :=
  { messageId := "m1", fromAddress := "bob::relay", toAddress := "me::relay",
    content := .receiptJson "m0", timestamp := "2026-01-01T00:00:00.000Z",
    type := "receipt.delivered", threadId := none, replyTo := none,
    mediaType := none, verified := true }

/-- Contact book whose block store holds the exact pattern
`spam::bad.com`, caches loaded as `open()` builds them. -/
def blockedBook : ContactBook :=
  { contacts := [], pending := [], blockedPatterns := ["spam::bad.com"],
    blockedExact := ["spam::bad.com"], blockedDomains := [] }

/-- Agent state around `blockedBook`. -/
def blockedState : AgentState :=
  { book := blockedBook, trustPolicy := "approval-required", signingKey := 1,
    address := "me::relay", nowStr := "2026-01-02T00:00:00.000Z",
    resolver := fun _ => none }

/-- An inbound envelope from the blocked address (its signature does not
matter: the blocked check precedes verification). -/
def blockedEnv : MessageEnvelope :=
  mkEnv "spam::bad.com" "me::relay" "message" (encryptPayload (.raw [1]) 2 1 3)

/-- The envelope `createEnvelope` produces for the concrete C4 instance. -/
def c4Env : MessageEnvelope :=
  signEnvelope (unsignedEnvelope "a::b" "c::d" "message"
    (encryptStep "message" (.raw [104, 105]) 1 (verifyKeyOf 2) 5)
    noOptions "m1" "n1" "t1") 1

/-- A concrete map with unsorted keys, a `signature` entry and a null. -/
def c7L1 : List (String × Json) :=
  [("b", Json.num 2), ("a", Json.num 1), ("signature", Json.str "x"), ("n", Json.null)]

/-- The same map with its first two entries inserted in the other order. -/
def c7L2 : List (String × Json) :=
  [("a", Json.num 1), ("b", Json.num 2), ("signature", Json.str "x"), ("n", Json.null)]

/-- A wire dict missing `nonce`, `payload` and `signature`. -/
def c9Dict : List (String × Json) :=
  [("uam_version", Json.str "0.1"), ("message_id", Json.str "m"),
   ("from", Json.str "a::b"), ("to", Json.str "c::d"),
   ("timestamp", Json.str "t"), ("type", Json.str "message")]

/-! ## Helper lemmas -/

/-- Conditional in-place map: finding after updating the matching rows is
updating the found row (when the update preserves the predicate). -/
theorem find?_map_ite {α : Type} (p : α → Bool) (f : α → α)
    (hf : ∀ x, p (f x) = p x) :
    ∀ l : List α,
      (l.map (fun x => if p x then f x else x)).find? p = (l.find? p).map f := by
  intro l
  induction l with
  | nil => rfl
  | cons x xs ih =>
    by_cases hp : p x = true
    · simp [List.find?_cons, hp, hf]
    · simp only [Bool.not_eq_true] at hp
      simp [List.find?_cons, hp, hf, ih]

/-- Finding in an append skips a prefix in which nothing matches. -/
theorem find?_append_of_none {α : Type} (p : α → Bool) :
    ∀ l l2 : List α, l.any p = false → (l ++ l2).find? p = l2.find? p := by
  intro l l2 h
  induction l with
  | nil => rfl
  | cons x xs ih =>
    simp only [List.any_cons, Bool.or_eq_false_iff] at h
    simp [List.find?_cons, h.1, ih h.2]

/-- Upsert result: the trust state stored for the upserted address is the
requested one (defaulting to `"trusted"`). -/
theorem addContact_getTrustState (b : ContactBook) (a pk : String)
    (opts : AddContactOptions) :
    getTrustState (addContact b a pk opts) a = some (opts.trustState.getD "trusted") := by
  unfold addContact getTrustState
  by_cases h : b.contacts.any (fun c => c.address == a) = true
  · rw [if_pos h]
    rw [find?_map_ite (fun c => c.address == a)
          (fun c => updateRow c pk opts.displayName (opts.trustState.getD "trusted")
            opts.trustSource opts.relay opts.relaysJson)
          (fun c => by simp [updateRow])]
    cases hfind : b.contacts.find? (fun c => c.address == a) with
    | none =>
        rw [List.any_eq_true] at h
        obtain ⟨c0, hc0mem, hc0⟩ := h
        exact absurd hc0 (by simpa using List.find?_eq_none.mp hfind c0 hc0mem)
    | some c1 => simp [updateRow]
  · rw [if_neg h]
    rw [find?_append_of_none _ _ _ (Bool.of_not_eq_true h)]
    simp [List.find?_cons]

/-! ## Claim theorems -/

/-- C10: `addContact` with no `trustState` option stores the contact with
trust state `"trusted"`, a state accepted by the trusted/verified/pinned
inbound-message helper — not a low-trust default such as `"unknown"` or
`"unverified"`. -/
theorem C10_addContact_default_is_trusted (book : ContactBook)
    (address publicKey : String) :
    getTrustState (addContact book address publicKey noContactOptions) address
      = some "trusted" ∧
    isTrustedOrVerified (addContact book address publicKey noContactOptions) address
      = true := by
  have h := addContact_getTrustState book address publicKey noContactOptions
  refine ⟨by simpa [noContactOptions] using h, ?_⟩
  unfold isTrustedOrVerified
  rw [h]
  rfl

/-- C1 (evaluation at the failing input): for a contact pinned under
`"vk:1"`, a later `addContact` with a different key `"vk:2"` silently
replaces the stored public key — no rejection, no `KeyPinningError` (the
class is never thrown by the SDK) — and even demotes the trust state from
`pinned` to the default `trusted`; likewise the inbound `handshake.accept`
handler overwrites the pinned key with whatever key authenticated the
accept. -/
theorem C1_pinned_key_silently_replaced :
    getTrustState pinnedBook "mallory::evil" = some "pinned" ∧
    getPublicKey pinnedBook "mallory::evil" = some "vk:1" ∧
    getPublicKey (addContact pinnedBook "mallory::evil" "vk:2" noContactOptions)
      "mallory::evil" = some "vk:2" ∧
    getTrustState (addContact pinnedBook "mallory::evil" "vk:2" noContactOptions)
      "mallory::evil" = some "trusted" ∧
    getPublicKey (handleAccept pinnedState pinnedAcceptEnv 2).book "mallory::evil"
      = some "vk:2" := by
  decide

/-- C3 (evaluation at the failing input): `canonicalize` of a map holding the
non-ASCII string `"é"` emits the raw UTF-8 bytes `195, 169` — not the
six-character `\u00e9` escape required by `ensure_ascii=true` — so the
canonical byte image is not ASCII-only. -/
theorem C3_canonicalize_not_ascii :
    canonicalize [("a", Json.str "é")]
      = [123, 34, 97, 34, 58, 34, 195, 169, 34, 125] ∧
    (canonicalize [("a", Json.str "é")]).all (fun b => b < 128) = false := by
  decide

/-- C2 (evaluation at the failing input): under the non-auto-accept policy
`approval-required`, a well-signed, decryptable `message` envelope from a
sender whose stored trust state is `pinned` is silently dropped by
`_processInbound` — the gate tests only `trusted`/`verified`, though the
contact book's own inbound-filtering helper accepts `pinned`. -/
theorem C2_pinned_sender_message_dropped :
    (processInbound pinnedState pinnedMsgEnv).map (fun r => (r.1, r.2.2))
      = Except.ok (none, [Event.sigVerify]) ∧
    getTrustState pinnedState.book pinnedMsgEnv.fromAddress = some "pinned" ∧
    verifyEnvelope pinnedMsgEnv (deserializeVerifyKey "vk:1") = true ∧
    decryptPayload pinnedMsgEnv.payload pinnedState.signingKey
      (deserializeVerifyKey "vk:1") = some (Plain.raw [104, 105]) ∧
    isTrustedOrVerified pinnedState.book pinnedMsgEnv.fromAddress = true ∧
    pinnedState.trustPolicy ≠ "auto-accept" := by
  decide

/-- Handshake routing is never user-visible: `handleInbound` always reports
`null` to the caller. -/
theorem handleInbound_result_none (st : AgentState) (e : MessageEnvelope) (vk : Nat)
    (r : Option ReceivedMessage × AgentState × List Event)
    (h : handleInbound st e vk = .ok r) : r.1 = none := by
  unfold handleInbound at h
  split at h
  · cases hr : handleRequest st e with
    | error pe => rw [hr] at h; cases h
    | ok p => rw [hr] at h; cases h; rfl
  · split at h
    · cases h; rfl
    · cases h; rfl

/-- C5 (counterexample): a well-signed `receipt.delivered` envelope from a
trusted sender is NOT routed internally — it passes the message trust gate,
is decrypted, and appears in the list returned by `inbox`, contradicting the
claim that only `message`-type envelopes can appear there. -/
theorem C5_receipt_envelope_returned_by_inbox :
    (runInbox trustedState [receiptEnv]).map (fun r => r.1.map (fun m => m.type))
      = Except.ok ["receipt.delivered"] ∧
    receiptEnv.type ≠ "message" := by
  decide

/-- C5 (amended): of the enumerated non-`message` types, exactly the three
handshake types are routed internally by `_processInbound` and never produce
a `ReceivedMessage`; receipt and session types instead flow through the
ordinary message path (see the counterexample for their delivery). -/
theorem C5_amended_handshake_types_internal (st : AgentState) (e : MessageEnvelope)
    (res : Option ReceivedMessage × AgentState × List Event)
    (h : processInbound st e = .ok res)
    (ht : e.type = "handshake.request" ∨ e.type = "handshake.accept"
          ∨ e.type = "handshake.deny") :
    res.1 = none := by
  have htb : (e.type == "handshake.request" || e.type == "handshake.accept"
      || e.type == "handshake.deny") = true := by
    rcases ht with ht | ht | ht <;> simp [ht]
  unfold processInbound at h
  split at h
  · cases h; rfl
  · split at h
    · cases h; rfl
    · rename_i senderPkStr heq
      split at h
      · cases h; rfl
      · cases hh : handleInbound st e (deserializeVerifyKey senderPkStr) with
        | error pe => rw [hh] at h; cases h
        | ok r0 =>
            rw [hh] at h
            obtain ⟨r1, st2, evs⟩ := r0
            cases h
            exact handleInbound_result_none _ _ _ (r1, st2, evs) hh

/-- C5 (witness for the amended theorem): the concrete `handshake.deny`
envelope from the trusted contact is processed with no user-visible result. -/
theorem C5_amended_handshake_types_internal_witness :
    ((none : Option ReceivedMessage), trustedState, [Event.sigVerify]).1
      = (none : Option ReceivedMessage) :=
  C5_amended_handshake_types_internal trustedState denyEnv
    (none, trustedState, [Event.sigVerify]) rfl (Or.inr (Or.inr rfl))

/-- Inventory of the envelopes the `handshake.request` handler can emit:
only `handshake.accept` and `handshake.deny`. -/
theorem handleRequest_events (st : AgentState) (e : MessageEnvelope)
    (r : AgentState × List Event) (h : handleRequest st e = .ok r) :
    ∀ ev ∈ r.2, ev = Event.sent "handshake.accept" ∨ ev = Event.sent "handshake.deny" := by
  unfold handleRequest at h
  split at h
  · cases h
  · split at h
    · split at h
      · cases h
      · split at h
        · cases h
          intro ev hev
          rw [List.mem_singleton.mp hev]
          exact Or.inl rfl
        · split at h
          · cases h
            intro ev hev
            rw [List.mem_singleton.mp hev]
            exact Or.inr rfl
          · cases h
            intro ev hev
            simp at hev
    · cases h

/-- Inventory of the envelopes inbound handshake routing can emit. -/
theorem handleInbound_events (st : AgentState) (e : MessageEnvelope) (vk : Nat)
    (r : Option ReceivedMessage × AgentState × List Event)
    (h : handleInbound st e vk = .ok r) :
    ∀ ev ∈ r.2.2, ev = Event.sent "handshake.accept" ∨ ev = Event.sent "handshake.deny" := by
  unfold handleInbound at h
  split at h
  · cases hr : handleRequest st e with
    | error pe => rw [hr] at h; cases h
    | ok p =>
        rw [hr] at h
        cases h
        exact handleRequest_events st e p hr
  · split at h
    · cases h
      intro ev hev
      simp at hev
    · cases h
      intro ev hev
      simp at hev

/-- Inventory of the events of one `_processInbound` call: signature checks,
decryption attempts, and at most a handshake reply — never a `receipt.read`. -/
theorem processInbound_events (st : AgentState) (e : MessageEnvelope)
    (res : Option ReceivedMessage × AgentState × List Event)
    (h : processInbound st e = .ok res) :
    ∀ ev ∈ res.2.2, ev = Event.sigVerify ∨ ev = Event.decryptOp ∨
      ev = Event.sent "handshake.accept" ∨ ev = Event.sent "handshake.deny" := by
  unfold processInbound at h
  split at h
  · cases h; intro ev hev; simp at hev
  · split at h
    · cases h; intro ev hev; simp at hev
    · rename_i senderPkStr heq
      split at h
      · cases h
        intro ev hev
        rw [List.mem_singleton.mp hev]
        exact Or.inl rfl
      · split at h
        · cases hh : handleInbound st e (deserializeVerifyKey senderPkStr) with
          | error pe => rw [hh] at h; cases h
          | ok r0 =>
              rw [hh] at h
              obtain ⟨r1, st2, evs⟩ := r0
              cases h
              intro ev hev
              rcases List.mem_cons.mp hev with hev | hev
              · exact Or.inl hev
              · rcases handleInbound_events st e _ (r1, st2, evs) hh ev hev with ha | ha
                · exact Or.inr (Or.inr (Or.inl ha))
                · exact Or.inr (Or.inr (Or.inr ha))
        · split at h
          · cases h
            intro ev hev
            rw [List.mem_singleton.mp hev]
            exact Or.inl rfl
          · split at h
            · cases h
              intro ev hev
              rcases List.mem_cons.mp hev with hev | hev
              · exact Or.inl hev
              · rw [List.mem_singleton.mp hev]
                exact Or.inr (Or.inl rfl)
            · cases h
              intro ev hev
              rcases List.mem_cons.mp hev with hev | hev
              · exact Or.inl hev
              · rw [List.mem_singleton.mp hev]
                exact Or.inr (Or.inl rfl)

/-- Shape of a delivered message: `_processInbound` returns `some m` only
from the final decrypt branch, where `m` copies the envelope's type and
sender, the sender was not blocked, and the state is unchanged. -/
theorem processInbound_some (st : AgentState) (e : MessageEnvelope)
    (m : ReceivedMessage) (st2 : AgentState) (tr : List Event)
    (h : processInbound st e = .ok (some m, st2, tr)) :
    m.type = e.type ∧ m.fromAddress = e.fromAddress ∧
    isBlocked st.book e.fromAddress = false ∧ st2 = st := by
  unfold processInbound at h
  split at h
  · cases h
  · rename_i hnb
    split at h
    · cases h
    · rename_i senderPkStr heq
      split at h
      · cases h
      · split at h
        · cases hh : handleInbound st e (deserializeVerifyKey senderPkStr) with
          | error pe => rw [hh] at h; cases h
          | ok r0 =>
              rw [hh] at h
              obtain ⟨r1, st2x, evs⟩ := r0
              cases h
              exact absurd (handleInbound_result_none st e _ (some m, st2, evs) hh)
                (by simp)
        · split at h
          · cases h
          · split at h
            · cases h
            · cases h
              exact ⟨rfl, rfl, Bool.of_not_eq_true hnb, rfl⟩

/-- C8: one inbox iteration never emits `receipt.read` for an inbound
envelope whose type carries a `receipt.`, `handshake.` or `session.` prefix,
and any `receipt.read` it does emit is for a message that was returned to
the user and whose type lacks those prefixes. -/
theorem C8_receipt_non_loopback (st : AgentState) (e : MessageEnvelope)
    (out : List ReceivedMessage) (st2 : AgentState) (tr : List Event)
    (h : inboxStep st e = .ok (out, st2, tr)) :
    (protocolPrefixed e.type = true → Event.sent "receipt.read" ∉ tr) ∧
    (Event.sent "receipt.read" ∈ tr →
      out ≠ [] ∧ out.all (fun m => !(protocolPrefixed m.type)) = true) := by
  unfold inboxStep at h
  cases hp : processInbound st e with
  | error pe => rw [hp] at h; cases h
  | ok r0 =>
      rw [hp] at h
      obtain ⟨res, stp, trp⟩ := r0
      have hev := processInbound_events st e (res, stp, trp) hp
      cases res with
      | none =>
          cases h
          constructor
          · intro _ hmem
            rcases hev _ hmem with h1 | h1 | h1 | h1 <;> simp at h1
          · intro hmem
            rcases hev _ hmem with h1 | h1 | h1 | h1 <;> simp at h1
      | some m =>
          have hms := processInbound_some st e m stp trp hp
          cases h
          constructor
          · intro hpre hmem
            rcases List.mem_append.mp hmem with hmem | hmem
            · rcases hev _ hmem with h1 | h1 | h1 | h1 <;> simp at h1
            · unfold sendReadReceipt at hmem
              rw [hms.1, hpre] at hmem
              simp at hmem
          · intro hmem
            refine ⟨by simp, ?_⟩
            rcases List.mem_append.mp hmem with hmem | hmem
            · rcases hev _ hmem with h1 | h1 | h1 | h1 <;> simp at h1
            · unfold sendReadReceipt at hmem
              by_cases hpm : protocolPrefixed m.type = true
              · rw [if_pos hpm] at hmem
                simp at hmem
              · simp [Bool.of_not_eq_true hpm]

/-- C8 (witness): the concrete `receipt.delivered` envelope is delivered to
the user but its processing emits no `receipt.read`. -/
theorem C8_receipt_non_loopback_witness :
    Event.sent "receipt.read" ∉ [Event.sigVerify, Event.decryptOp] :=
  (C8_receipt_non_loopback trustedState receiptEnv [receiptMsg] trustedState
    [Event.sigVerify, Event.decryptOp] rfl).1 (by decide)

/-- Contact upserts never touch the block caches. -/
theorem addContact_blocked_fields (b : ContactBook) (a pk : String)
    (o : AddContactOptions) :
    (addContact b a pk o).blockedExact = b.blockedExact ∧
    (addContact b a pk o).blockedDomains = b.blockedDomains := by
  unfold addContact
  split <;> exact ⟨rfl, rfl⟩

/-- Pending-queue writes never touch the block caches. -/
theorem addPending_blocked_fields (b : ContactBook) (a : String) (c : Plain) :
    (addPending b a c).blockedExact = b.blockedExact ∧
    (addPending b a c).blockedDomains = b.blockedDomains := by
  unfold addPending
  split <;> exact ⟨rfl, rfl⟩

/-- TOFU pinning never touches the block caches. -/
theorem setPinnedAt_blocked_fields (b : ContactBook) (a now : String) :
    (setPinnedAt b a now).blockedExact = b.blockedExact ∧
    (setPinnedAt b a now).blockedDomains = b.blockedDomains :=
  ⟨rfl, rfl⟩

/-- The request handler can only grow contacts/pending; block caches stay. -/
theorem handleRequest_blocked_fields (st : AgentState) (e : MessageEnvelope)
    (r : AgentState × List Event) (h : handleRequest st e = .ok r) :
    r.1.book.blockedExact = st.book.blockedExact ∧
    r.1.book.blockedDomains = st.book.blockedDomains := by
  unfold handleRequest at h
  split at h
  · cases h
  · split at h
    · split at h
      · cases h
      · split at h
        · cases h
          exact addContact_blocked_fields st.book _ _ _
        · split at h
          · cases h
            exact ⟨rfl, rfl⟩
          · cases h
            exact addPending_blocked_fields st.book _ _
    · cases h

/-- Inbound handshake routing never touches the block caches. -/
theorem handleInbound_blocked_fields (st : AgentState) (e : MessageEnvelope) (vk : Nat)
    (r : Option ReceivedMessage × AgentState × List Event)
    (h : handleInbound st e vk = .ok r) :
    r.2.1.book.blockedExact = st.book.blockedExact ∧
    r.2.1.book.blockedDomains = st.book.blockedDomains := by
  unfold handleInbound at h
  split at h
  · cases hr : handleRequest st e with
    | error pe => rw [hr] at h; cases h
    | ok p =>
        rw [hr] at h
        cases h
        exact handleRequest_blocked_fields st e p hr
  · split at h
    · cases h
      unfold handleAccept
      constructor
      · rw [(setPinnedAt_blocked_fields _ _ _).1,
            (addContact_blocked_fields st.book _ _ _).1]
      · rw [(setPinnedAt_blocked_fields _ _ _).2,
            (addContact_blocked_fields st.book _ _ _).2]
    · cases h
      exact ⟨rfl, rfl⟩

/-- The whole inbound pipeline preserves the block caches. -/
theorem processInbound_blocked_fields (st : AgentState) (e : MessageEnvelope)
    (res : Option ReceivedMessage × AgentState × List Event)
    (h : processInbound st e = .ok res) :
    res.2.1.book.blockedExact = st.book.blockedExact ∧
    res.2.1.book.blockedDomains = st.book.blockedDomains := by
  unfold processInbound at h
  split at h
  · cases h; exact ⟨rfl, rfl⟩
  · split at h
    · cases h; exact ⟨rfl, rfl⟩
    · rename_i senderPkStr heq
      split at h
      · cases h; exact ⟨rfl, rfl⟩
      · split at h
        · cases hh : handleInbound st e (deserializeVerifyKey senderPkStr) with
          | error pe => rw [hh] at h; cases h
          | ok r0 =>
              rw [hh] at h
              obtain ⟨r1, st2, evs⟩ := r0
              cases h
              exact handleInbound_blocked_fields st e _ (r1, st2, evs) hh
        · split at h
          · cases h; exact ⟨rfl, rfl⟩
          · split at h
            · cases h; exact ⟨rfl, rfl⟩
            · cases h; exact ⟨rfl, rfl⟩

/-- The blocked check reads only the two cache fields. -/
theorem isBlocked_eq_of_fields (b1 b2 : ContactBook)
    (hE : b1.blockedExact = b2.blockedExact)
    (hD : b1.blockedDomains = b2.blockedDomains) (a : String) :
    isBlocked b1 a = isBlocked b2 a := by
  unfold isBlocked
  rw [hE, hD]

/-- Splitting on `::` never yields the empty list of pieces. -/
theorem splitCC_ne_nil (cs : List Char) : splitCC cs ≠ [] := by
  unfold splitCC
  split
  · simp
  · simp
  · split <;> simp

/-- A one-piece split means the separator never occurred. -/
theorem splitCC_single : ∀ cs x, splitCC cs = [x] → cs = x := by
  intro cs
  induction cs using splitCC.induct with
  | case1 =>
      intro x h
      rw [splitCC.eq_1] at h
      cases h
      rfl
  | case2 rest ih =>
      intro x h
      rw [splitCC.eq_2] at h
      injection h with h1 h2
      exact absurd h2 (splitCC_ne_nil rest)
  | case3 c rest hne hnil ih =>
      intro x h
      exact absurd hnil (splitCC_ne_nil rest)
  | case4 c rest hne hh t hcons ih =>
      intro x h
      rw [splitCC.eq_3 c rest hne, hcons] at h
      injection h with h1 h2
      subst h2
      rw [← h1, ih hh hcons]


/-- A two-piece split reconstructs the string around its one separator. -/
theorem splitCC_pair : ∀ cs a d, splitCC cs = [a, d] → cs = a ++ ':' :: ':' :: d := by
  intro cs
  induction cs using splitCC.induct with
  | case1 =>
      intro a d h
      rw [splitCC.eq_1] at h
      simp at h
  | case2 rest ih =>
      intro a d h
      rw [splitCC.eq_2] at h
      injection h with h1 h2
      rw [← h1, splitCC_single rest d h2]
      rfl
  | case3 c rest hne hnil ih =>
      intro a d h
      exact absurd hnil (splitCC_ne_nil rest)
  | case4 c rest hne hh t hcons ih =>
      intro a d h
      rw [splitCC.eq_3 c rest hne, hcons] at h
      injection h with h1 h2
      subst h2
      rw [← h1, ih hh d hcons]
      rfl

/-- Growing the fold accumulator: both caches only ever gain entries. -/
theorem foldl_cache_mono (ps : List String) :
    ∀ acc : List String × List String,
      (∀ x, x ∈ acc.1 → x ∈ (ps.foldl cacheBlockPattern acc).1) ∧
      (∀ x, x ∈ acc.2 → x ∈ (ps.foldl cacheBlockPattern acc).2) := by
  induction ps with
  | nil => exact fun acc => ⟨fun x h => h, fun x h => h⟩
  | cons q qs ih =>
      intro acc
      constructor
      · intro x hx
        apply (ih (cacheBlockPattern acc q)).1
        unfold cacheBlockPattern
        split
        · exact hx
        · split
          · exact hx
          · exact List.mem_append_left _ hx
      · intro x hx
        apply (ih (cacheBlockPattern acc q)).2
        unfold cacheBlockPattern
        split
        · split
          · exact hx
          · exact List.mem_append_left _ hx
        · exact hx

/-- A stored non-wildcard pattern reaches the exact cache. -/
theorem foldl_cache_exact (p : String)
    (hnw : ∀ rest, p.data ≠ '*' :: ':' :: ':' :: rest) :
    ∀ (ps : List String) (acc : List String × List String), p ∈ ps →
      p ∈ (ps.foldl cacheBlockPattern acc).1 := by
  intro ps
  induction ps with
  | nil => intro acc h; cases h
  | cons q qs ih =>
      intro acc hmem
      rcases List.mem_cons.mp hmem with h | h
      · subst h
        apply (foldl_cache_mono qs (cacheBlockPattern acc p)).1
        unfold cacheBlockPattern
        split
        · rename_i rest heq
          exact absurd heq (hnw rest)
        · split
          · rename_i hcont
            exact List.mem_of_elem_eq_true hcont
          · exact List.mem_append_right _ (List.mem_singleton_self p)
      · exact ih (cacheBlockPattern acc q) h

/-- A stored `*::domain` wildcard reaches the domain cache, prefix
stripped. -/
theorem foldl_cache_wild (d : String) :
    ∀ (ps : List String) (acc : List String × List String),
      ("*::" ++ d) ∈ ps → d ∈ (ps.foldl cacheBlockPattern acc).2 := by
  intro ps
  induction ps with
  | nil => intro acc h; cases h
  | cons q qs ih =>
      intro acc hmem
      rcases List.mem_cons.mp hmem with h | h
      · subst h
        apply (foldl_cache_mono qs (cacheBlockPattern acc ("*::" ++ d))).2
        unfold cacheBlockPattern
        have hdata : ("*::" ++ d).data = '*' :: ':' :: ':' :: d.data := by
          rw [String.data_append]
          rfl
        split
        · rename_i rest heq
          rw [hdata] at heq
          injection heq with e1 rest1
          injection rest1 with e2 rest2
          injection rest2 with e3 rest3
          rw [← rest3]
          split
          · rename_i hcont
            have hm := List.mem_of_elem_eq_true hcont
            simpa using hm
          · simp
        · rename_i hno
          exact absurd hdata (hno d.data)
      · exact ih (cacheBlockPattern acc q) h

/-- Dropping from the front cannot pass a kept element at the very end. -/
theorem dropWhile_append_single (p : Char → Bool) (x : Char) (hx : p x = false) :
    ∀ l : List Char, (l ++ [x]).dropWhile p = l.dropWhile p ++ [x] := by
  intro l
  induction l with
  | nil => simp [List.dropWhile, hx]
  | cons c cs ih =>
      by_cases hc : p c = true
      · simp [List.dropWhile, hc, ih]
      · simp [List.dropWhile, Bool.of_not_eq_true hc]

/-- A non-whitespace head survives the trim. -/
theorem trimChars_cons_of_not_white (x : Char) (hx : isWhite x = false)
    (xs : List Char) : ∃ ys, trimChars (x :: xs) = x :: ys := by
  unfold trimChars
  have h1 : (x :: xs).dropWhile isWhite = x :: xs := by
    rw [List.dropWhile_cons]
    simp [hx]
  rw [h1]
  refine ⟨((xs.reverse.dropWhile isWhite).reverse), ?_⟩
  rw [List.reverse_cons, dropWhile_append_single isWhite x hx, List.reverse_append]
  rfl

/-- A valid agent name starts with a lowercase alphanumeric character. -/
theorem validAgent_head (a : List Char) (h : validAgent a = true) :
    ∃ c0 a2, a = c0 :: a2 ∧ isLowerAlnum c0 = true := by
  unfold validAgent at h
  split at h
  · cases h
  · rename_i c
    exact ⟨c, [], rfl, h⟩
  · rename_i c rest hx
    rw [Bool.and_eq_true, Bool.and_eq_true, Bool.and_eq_true] at h
    exact ⟨c, rest, rfl, h.1.1.1⟩

/-- Components of a successful address validation: the normalized string
splits into a valid agent and a valid domain. -/
theorem validAddress_parts (addr : String) (hv : validAddress addr = true) :
    ∃ a d, splitCC ((trimChars addr.data).map lowerChar) = [a, d] ∧
      validAgent a = true ∧ validDomain d = true := by
  unfold validAddress at hv
  rw [Bool.and_eq_true] at hv
  rcases hv with ⟨_, hm⟩
  split at hm
  · rename_i a d heq
    rw [Bool.and_eq_true] at hm
    exact ⟨a, d, heq, hm.1, hm.2⟩
  · cases hm

/-- A valid address never has the shape of a `*::` wildcard pattern. -/
theorem validAddress_not_wild (addr : String) (hv : validAddress addr = true) :
    ∀ rest, addr.data ≠ '*' :: ':' :: ':' :: rest := by
  intro rest hsh
  obtain ⟨a, d, hsplit, hagent, _⟩ := validAddress_parts addr hv
  obtain ⟨c0, a2, ha, hc0⟩ := validAgent_head a hagent
  have hrec := splitCC_pair _ a d hsplit
  obtain ⟨ys, hys⟩ :=
    trimChars_cons_of_not_white '*' (by decide) (':' :: ':' :: rest)
  rw [hsh, hys] at hrec
  rw [ha] at hrec
  simp only [List.map_cons, List.cons_append] at hrec
  injection hrec with h1 _
  rw [show lowerChar '*' = '*' from by decide] at h1
  rw [← h1] at hc0
  cases hc0

/-- Messages delivered by one inbox iteration come from unblocked senders,
and the iteration preserves the block caches. -/
theorem inboxStep_out (st : AgentState) (e : MessageEnvelope)
    (out1 : List ReceivedMessage) (stm : AgentState) (tr1 : List Event)
    (h : inboxStep st e = .ok (out1, stm, tr1)) :
    (∀ m ∈ out1, m.fromAddress = e.fromAddress ∧
      isBlocked st.book e.fromAddress = false) ∧
    stm.book.blockedExact = st.book.blockedExact ∧
    stm.book.blockedDomains = st.book.blockedDomains := by
  unfold inboxStep at h
  cases hp : processInbound st e with
  | error pe => rw [hp] at h; cases h
  | ok r0 =>
      rw [hp] at h
      obtain ⟨res0, stp, trp⟩ := r0
      have hf := processInbound_blocked_fields st e (res0, stp, trp) hp
      cases res0 with
      | none =>
          cases h
          exact ⟨fun m hm => absurd hm (List.not_mem_nil m), hf.1, hf.2⟩
      | some m =>
          have hms := processInbound_some st e m stp trp hp
          cases h
          refine ⟨?_, hf.1, hf.2⟩
          intro m1 hm1
          rw [List.mem_singleton.mp hm1]
          exact ⟨hms.2.1, hms.2.2.1⟩

/-- A poll never delivers a message from a sender the current block caches
reject. -/
theorem runInbox_blocked_not_delivered (book : ContactBook) (addr : String)
    (hb : isBlocked book addr = true) :
    ∀ (envs : List MessageEnvelope) (st : AgentState),
      st.book.blockedExact = book.blockedExact →
      st.book.blockedDomains = book.blockedDomains →
      ∀ out st2 tr, runInbox st envs = .ok (out, st2, tr) →
        out.all (fun m => !(m.fromAddress == addr)) = true := by
  intro envs
  induction envs with
  | nil =>
      intro st hE hD out st2 tr hrun
      unfold runInbox at hrun
      cases hrun
      rfl
  | cons e0 rest ih =>
      intro st hE hD out st2 tr hrun
      unfold runInbox at hrun
      split at hrun
      · cases hrun
      · rename_i out1 stm tr1 hstep
        have hio := inboxStep_out st e0 out1 stm tr1 hstep
        split at hrun
        · cases hrun
        · rename_i outs st3 trs hrest
          cases hrun
          rw [List.all_append, Bool.and_eq_true]
          constructor
          · rw [List.all_eq_true]
            intro m hm
            have h1 := (hio.1 m hm).1
            have h2 := (hio.1 m hm).2
            rw [isBlocked_eq_of_fields st.book book hE hD] at h2
            have hne : m.fromAddress ≠ addr := by
              intro hcontra
              rw [h1] at hcontra
              rw [hcontra] at h2
              rw [hb] at h2
              cases h2
            simp [hne]
          · exact ih stm (hio.2.1.trans hE) (hio.2.2.trans hD) _ _ _ hrest

/-- C6: when the block store holds the exact pattern for `addr` or the
`*::domain` wildcard for its domain (the wildcard applying when `addr`
contains `::`), `isBlocked` accepts `addr`; an envelope from `addr` is
dropped by `_processInbound` with no signature verification and no
decryption attempted (empty event trace); and no message from `addr` ever
appears in an inbox poll's results. -/
theorem C6_blocklist_precedence (book : ContactBook) (patterns : List String)
    (addr : String) (st : AgentState) (e : MessageEnvelope)
    (envs : List MessageEnvelope) (out : List ReceivedMessage)
    (st2 : AgentState) (tr : List Event)
    (hc : (book.blockedExact, book.blockedDomains) = buildBlockCaches patterns)
    (hv : validAddress addr = true)
    (hp : addr ∈ patterns ∨
          (("*::" ++ domainPart addr) ∈ patterns ∧ (splitCC addr.data).drop 1 ≠ []))
    (hst : st.book = book) (he : e.fromAddress = addr)
    (hrun : runInbox st envs = .ok (out, st2, tr)) :
    isBlocked book addr = true ∧
    processInbound st e = .ok (none, st, []) ∧
    out.all (fun m => !(m.fromAddress == addr)) = true := by
  have hE : book.blockedExact = (buildBlockCaches patterns).1 := by
    rw [← hc]
  have hD : book.blockedDomains = (buildBlockCaches patterns).2 := by
    rw [← hc]
  have hb : isBlocked book addr = true := by
    rcases hp with hp | ⟨hp, hsep⟩
    · have hnw := validAddress_not_wild addr hv
      have hmem := foldl_cache_exact addr hnw patterns ([], []) hp
      have hcont : (buildBlockCaches patterns).1.contains addr = true :=
        List.elem_eq_true_of_mem hmem
      unfold isBlocked
      rw [hE]
      rw [if_pos hcont]
    · have hmemd : domainPart addr ∈ (buildBlockCaches patterns).2 :=
        foldl_cache_wild (domainPart addr) patterns ([], []) hp
      unfold isBlocked
      rw [hE, hD]
      by_cases hex : (buildBlockCaches patterns).1.contains addr = true
      · rw [if_pos hex]
      · rw [if_neg hex]
        cases hdp : (splitCC addr.data).drop 1 with
        | nil => exact absurd hdp hsep
        | cons d1 drest =>
            have hdpa : domainPart addr = String.mk d1 := by
              unfold domainPart
              rw [hdp]
            show (buildBlockCaches patterns).2.contains (String.mk d1) = true
            exact List.elem_eq_true_of_mem (hdpa ▸ hmemd)
  refine ⟨hb, ?_, ?_⟩
  · unfold processInbound
    rw [he, hst]
    rw [if_pos hb]
  · exact runInbox_blocked_not_delivered book addr hb envs st
      (by rw [hst]) (by rw [hst]) out st2 tr hrun

/-- C6 (witness): the exact pattern `spam::bad.com` blocks the concrete
envelope; the poll returns nothing and performs no crypto. -/
theorem C6_blocklist_precedence_witness :
    isBlocked blockedBook "spam::bad.com" = true ∧
    processInbound blockedState blockedEnv = .ok (none, blockedState, []) ∧
    ([] : List ReceivedMessage).all
      (fun m => !(m.fromAddress == "spam::bad.com")) = true :=
  C6_blocklist_precedence blockedBook ["spam::bad.com"] "spam::bad.com"
    blockedState blockedEnv [blockedEnv] [] blockedState [] rfl (by decide)
    (Or.inl (List.mem_singleton_self _)) rfl rfl rfl

/-- Attaching a signature leaves the signature-scope dict unchanged
(`buildSignableDict` never reads the signature field). -/
theorem buildSignableDict_setSig (e : MessageEnvelope) (s : Sig) :
    buildSignableDict { e with signature := s } = buildSignableDict e := by
  cases e
  rfl

theorem buildSignableDict_signEnvelope (e : MessageEnvelope) (sk : Nat) :
    buildSignableDict (signEnvelope e sk) = buildSignableDict e :=
  buildSignableDict_setSig e _

/-- An envelope signed with `sk` verifies under the derived verify key. -/
theorem verify_signEnvelope (e : MessageEnvelope) (sk : Nat) :
    verifyEnvelope (signEnvelope e sk) (verifyKeyOf sk) = true := by
  unfold verifyEnvelope
  rw [buildSignableDict_signEnvelope]
  unfold signEnvelope signMessage verifySignature
  simp

/-- C4: every envelope `createEnvelope` returns (for a recipient verify key
derived from the recipient's signing key) verifies under the sender's verify
key; its payload decrypts back to the original plaintext — SealedBox
decryption with the recipient signing key for `handshake.request`, Box
decryption with the recipient signing key and sender verify key otherwise —
and its serialized wire JSON is within the 65,536-byte cap, the
`EnvelopeTooLargeError` branch having been taken instead otherwise. -/
theorem C4_createEnvelope_sound (fromA toA mt : String) (pt : Plain)
    (senderSk recipSk : Nat) (opts : EnvelopeOptions)
    (mid non ts : String) (bn : Nat) (e : MessageEnvelope)
    (h : createEnvelope fromA toA mt pt senderSk (verifyKeyOf recipSk) opts
          mid non ts bn = .ok e) :
    verifyEnvelope e (verifyKeyOf senderSk) = true ∧
    (if mt = "handshake.request"
      then decryptPayloadAnonymous e.payload recipSk = some pt
      else decryptPayload e.payload recipSk (verifyKeyOf senderSk) = some pt) ∧
    wireSize e ≤ MAX_ENVELOPE_SIZE := by
  unfold createEnvelope at h
  split at h
  · cases h
  · split at h
    · cases h
    · split at h
      · rename_i hsize
        cases h
        refine ⟨verify_signEnvelope _ senderSk, ?_, hsize⟩
        have hpay : (signEnvelope (unsignedEnvelope fromA toA mt
            (encryptStep mt pt senderSk (verifyKeyOf recipSk) bn)
            opts mid non ts) senderSk).payload
            = encryptStep mt pt senderSk (verifyKeyOf recipSk) bn := rfl
        rw [hpay]
        by_cases hmt : mt = "handshake.request"
        · rw [if_pos hmt]
          unfold encryptStep
          simp [hmt, encryptPayloadAnonymous, decryptPayloadAnonymous]
        · rw [if_neg hmt]
          unfold encryptStep
          simp [hmt, encryptPayload, decryptPayload]
      · cases h

set_option maxHeartbeats 4000000 in
set_option maxRecDepth 100000 in
/-- C4 (witness): the concrete envelope built from sender keypair 1 to
recipient keypair 2 verifies, decrypts, and fits the size cap. -/
theorem C4_createEnvelope_sound_witness :
    verifyEnvelope c4Env (verifyKeyOf 1) = true ∧
    (if ("message" : String) = "handshake.request"
      then decryptPayloadAnonymous c4Env.payload 2 = some (Plain.raw [104, 105])
      else decryptPayload c4Env.payload 2 (verifyKeyOf 1) = some (Plain.raw [104, 105])) ∧
    wireSize c4Env ≤ MAX_ENVELOPE_SIZE :=
  C4_createEnvelope_sound "a::b" "c::d" "message" (.raw [104, 105]) 1 2 noOptions
    "m1" "n1" "t1" 5 c4Env rfl

/-- Characters with equal code points are equal. -/
theorem char_toNat_inj (a b : Char) (h : a.toNat = b.toNat) : a = b :=
  Char.ext (UInt32.ext h)

/-- Totality of the code-point lexicographic comparison. -/
theorem charListLe_total : ∀ as bs, charListLe as bs = true ∨ charListLe bs as = true := by
  intro as
  induction as with
  | nil => intro bs; exact Or.inl rfl
  | cons a as2 ih =>
      intro bs
      cases bs with
      | nil => exact Or.inr rfl
      | cons b bs2 =>
          have E1 : charListLe (a :: as2) (b :: bs2)
              = (if a.toNat < b.toNat then true
                 else if b.toNat < a.toNat then false else charListLe as2 bs2) := rfl
          have E2 : charListLe (b :: bs2) (a :: as2)
              = (if b.toNat < a.toNat then true
                 else if a.toNat < b.toNat then false else charListLe bs2 as2) := rfl
          rw [E1, E2]
          rcases Nat.lt_trichotomy a.toNat b.toNat with hab | hab | hab
          · left; rw [if_pos hab]
          · rw [if_neg (by omega), if_neg (by omega), if_neg (by omega), if_neg (by omega)]
            exact ih bs2
          · right; rw [if_pos hab]

/-- Transitivity of the code-point lexicographic comparison. -/
theorem charListLe_trans : ∀ as bs cs, charListLe as bs = true →
    charListLe bs cs = true → charListLe as cs = true := by
  intro as
  induction as with
  | nil => intro bs cs h1 h2; rfl
  | cons a as2 ih =>
      intro bs cs h1 h2
      cases bs with
      | nil =>
          have E : charListLe (a :: as2) [] = false := rfl
          rw [E] at h1
          cases h1
      | cons b bs2 =>
          cases cs with
          | nil =>
              have E : charListLe (b :: bs2) [] = false := rfl
              rw [E] at h2
              cases h2
          | cons c cs2 =>
              have E1 : charListLe (a :: as2) (b :: bs2)
                  = (if a.toNat < b.toNat then true
                     else if b.toNat < a.toNat then false else charListLe as2 bs2) := rfl
              have E2 : charListLe (b :: bs2) (c :: cs2)
                  = (if b.toNat < c.toNat then true
                     else if c.toNat < b.toNat then false else charListLe bs2 cs2) := rfl
              have E3 : charListLe (a :: as2) (c :: cs2)
                  = (if a.toNat < c.toNat then true
                     else if c.toNat < a.toNat then false else charListLe as2 cs2) := rfl
              rw [E1] at h1
              rw [E2] at h2
              rw [E3]
              rcases Nat.lt_trichotomy a.toNat b.toNat with hab | hab | hab
              · rcases Nat.lt_trichotomy b.toNat c.toNat with hbc | hbc | hbc
                · rw [if_pos (by omega)]
                · rw [if_pos (by omega)]
                · rw [if_neg (by omega), if_pos (by omega)] at h2
                  cases h2
              · rcases Nat.lt_trichotomy b.toNat c.toNat with hbc | hbc | hbc
                · rw [if_pos (by omega)]
                · rw [if_neg (by omega), if_neg (by omega)] at h1
                  rw [if_neg (by omega), if_neg (by omega)] at h2
                  rw [if_neg (by omega), if_neg (by omega)]
                  exact ih bs2 cs2 h1 h2
                · rw [if_neg (by omega), if_pos (by omega)] at h2
                  cases h2
              · rw [if_neg (by omega), if_pos (by omega)] at h1
                cases h1

/-- Antisymmetry of the code-point lexicographic comparison. -/
theorem charListLe_antisymm : ∀ as bs, charListLe as bs = true →
    charListLe bs as = true → as = bs := by
  intro as
  induction as with
  | nil =>
      intro bs h1 h2
      cases bs with
      | nil => rfl
      | cons b bs2 =>
          have E : charListLe (b :: bs2) [] = false := rfl
          rw [E] at h2
          cases h2
  | cons a as2 ih =>
      intro bs h1 h2
      cases bs with
      | nil =>
          have E : charListLe (a :: as2) [] = false := rfl
          rw [E] at h1
          cases h1
      | cons b bs2 =>
          have E1 : charListLe (a :: as2) (b :: bs2)
              = (if a.toNat < b.toNat then true
                 else if b.toNat < a.toNat then false else charListLe as2 bs2) := rfl
          have E2 : charListLe (b :: bs2) (a :: as2)
              = (if b.toNat < a.toNat then true
                 else if a.toNat < b.toNat then false else charListLe bs2 as2) := rfl
          rw [E1] at h1
          rw [E2] at h2
          rcases Nat.lt_trichotomy a.toNat b.toNat with hab | hab | hab
          · rw [if_neg (by omega), if_pos (by omega)] at h2
            cases h2
          · rw [if_neg (by omega), if_neg (by omega)] at h1
            rw [if_neg (by omega), if_neg (by omega)] at h2
            rw [char_toNat_inj a b hab, ih bs2 h1 h2]
          · rw [if_neg (by omega), if_pos (by omega)] at h1
            cases h1

/-- Non-strict plus distinct means strict, for the code-point comparison. -/
theorem charListLt_of_le_of_ne : ∀ as bs, charListLe as bs = true → as ≠ bs →
    charListLt as bs = true := by
  intro as
  induction as with
  | nil =>
      intro bs h1 hne
      cases bs with
      | nil => exact absurd rfl hne
      | cons b bs2 => rfl
  | cons a as2 ih =>
      intro bs h1 hne
      cases bs with
      | nil =>
          have E : charListLe (a :: as2) [] = false := rfl
          rw [E] at h1
          cases h1
      | cons b bs2 =>
          have E1 : charListLe (a :: as2) (b :: bs2)
              = (if a.toNat < b.toNat then true
                 else if b.toNat < a.toNat then false else charListLe as2 bs2) := rfl
          have E2 : charListLt (a :: as2) (b :: bs2)
              = (if a.toNat < b.toNat then true
                 else if b.toNat < a.toNat then false else charListLt as2 bs2) := rfl
          rw [E1] at h1
          rw [E2]
          rcases Nat.lt_trichotomy a.toNat b.toNat with hab | hab | hab
          · rw [if_pos (by omega)]
          · rw [if_neg (by omega), if_neg (by omega)] at h1
            rw [if_neg (by omega), if_neg (by omega)]
            have hhd : a = b := char_toNat_inj a b hab
            subst hhd
            exact ih bs2 h1 (fun hcc => hne (by rw [hcc]))
          · rw [if_neg (by omega), if_pos (by omega)] at h1
            cases h1

/-- Strings with equal character lists are equal. -/
theorem strData_inj (a b : String) (h : a.data = b.data) : a = b := by
  cases a
  cases b
  exact congrArg String.mk h

/-- String-level antisymmetry of the JS sort comparison. -/
theorem strLe_antisymm (a b : String) (h1 : strLe a b = true)
    (h2 : strLe b a = true) : a = b :=
  strData_inj a b (charListLe_antisymm a.data b.data h1 h2)

/-- String-level strictness from non-strict plus distinctness. -/
theorem strLt_of_le_of_ne (a b : String) (h1 : strLe a b = true) (hne : a ≠ b) :
    strLt a b = true :=
  charListLt_of_le_of_ne a.data b.data h1
    (fun hd => hne (strData_inj a b hd))

/-- Two key-sorted permutations of a map with distinct keys coincide. -/
theorem sorted_keyed_unique : ∀ l₁ l₂ : List (String × String), l₁.Perm l₂ →
    l₁.Sorted keyLe → l₂.Sorted keyLe → (l₁.map Prod.fst).Nodup → l₁ = l₂ := by
  intro l₁
  induction l₁ with
  | nil =>
      intro l₂ hp _ _ _
      exact (hp.symm.eq_nil).symm
  | cons x xs ih =>
      intro l₂ hp hs₁ hs₂ hn
      cases l₂ with
      | nil =>
          have h0 := hp.eq_nil
          cases h0
      | cons y ys =>
          rcases List.sorted_cons.mp hs₁ with ⟨hx, hsxs⟩
          rcases List.sorted_cons.mp hs₂ with ⟨hy, hsys⟩
          have hn2 : x.1 ∉ xs.map Prod.fst ∧ (xs.map Prod.fst).Nodup := by
            rw [List.map_cons] at hn
            exact List.nodup_cons.mp hn
          obtain ⟨hnx, hnxs⟩ := hn2
          have hxy : x = y := by
            by_cases heq : x = y
            · exact heq
            · have hxmem : x ∈ y :: ys := hp.mem_iff.mp (List.mem_cons_self x xs)
              have hymem : y ∈ x :: xs := hp.symm.mem_iff.mp (List.mem_cons_self y ys)
              have hx2 : x ∈ ys := by
                rcases List.mem_cons.mp hxmem with h | h
                · exact absurd h heq
                · exact h
              have hy2 : y ∈ xs := by
                rcases List.mem_cons.mp hymem with h | h
                · exact absurd h.symm heq
                · exact h
              have hkey : x.1 = y.1 := strLe_antisymm _ _ (hx y hy2) (hy x hx2)
              have hmemk : x.1 ∈ xs.map Prod.fst := by
                rw [hkey]
                exact List.mem_map_of_mem Prod.fst hy2
              exact absurd hmemk hnx
          subst hxy
          rw [ih ys hp.cons_inv hsxs hsys hnxs]

/-- Sorting is a permutation. -/
theorem sortByKey_perm (l : List (String × String)) : (sortByKey l).Perm l :=
  List.perm_insertionSort keyLe l

/-- Sorting sorts, for the total and transitive key order. -/
theorem sortByKey_sorted (l : List (String × String)) : (sortByKey l).Sorted keyLe := by
  haveI : IsTotal (String × String) keyLe := ⟨fun a b => charListLe_total a.1.data b.1.data⟩
  haveI : IsTrans (String × String) keyLe :=
    ⟨fun a b c h1 h2 => charListLe_trans a.1.data b.1.data c.1.data h1 h2⟩
  exact List.sorted_insertionSort keyLe l

/-- Key-sorting is insensitive to the input order of a distinct-key map. -/
theorem sortByKey_congr (l₁ l₂ : List (String × String)) (hp : l₁.Perm l₂)
    (hn : (l₁.map Prod.fst).Nodup) : sortByKey l₁ = sortByKey l₂ := by
  apply sorted_keyed_unique _ _
    ((sortByKey_perm l₁).trans (hp.trans (sortByKey_perm l₂).symm))
    (sortByKey_sorted l₁) (sortByKey_sorted l₂)
  exact (((sortByKey_perm l₁).map Prod.fst).nodup_iff).mpr hn

/-- The recursive pair serialization is a `map` over the fields. -/
theorem stringifyPairs_eq_map (b : Bool) :
    ∀ l : List (String × Json),
      stringifyPairs b l = l.map (fun p => (p.1, stringifyValue b p.2)) := by
  intro l
  induction l with
  | nil => rfl
  | cons p ps ih =>
      cases p
      rw [List.map_cons, ← ih]
      rfl

/-- Object serialization through the explicit sorted form. -/
theorem sortedStringify_obj (fs : List (String × Json)) :
    sortedStringify (Json.obj fs) =
      "\x7b" ++ commaJoin ((sortByKey (stringifyPairs true fs)).map emitPair) ++ "\x7d" := rfl

/-- C7: `canonicalize` is insensitive to the key insertion order of a map
with distinct keys; entries whose value is null contribute nothing (removing
them all leaves the bytes identical); and entries keyed `signature` likewise
contribute nothing to the output. -/
theorem C7_canonicalize_stable (l₁ l₂ : List (String × Json))
    (hperm : l₁.Perm l₂) (hnodup : (l₁.map Prod.fst).Nodup) :
    canonicalize l₁ = canonicalize l₂ ∧
    canonicalize (l₁.filter (fun p => !(p.2.isNull))) = canonicalize l₁ ∧
    canonicalize (l₁.filter (fun p => !(p.1 == "signature"))) = canonicalize l₁ := by
  refine ⟨?_, ?_, ?_⟩
  · unfold canonicalize
    have hpf : (l₁.filter canonKeep).Perm (l₂.filter canonKeep) := hperm.filter canonKeep
    have hps : (stringifyPairs true (l₁.filter canonKeep)).Perm
        (stringifyPairs true (l₂.filter canonKeep)) := by
      rw [stringifyPairs_eq_map, stringifyPairs_eq_map]
      exact hpf.map _
    have hnf : ((l₁.filter canonKeep).map Prod.fst).Nodup :=
      hnodup.sublist ((List.filter_sublist _).map Prod.fst)
    have hns : ((stringifyPairs true (l₁.filter canonKeep)).map Prod.fst).Nodup := by
      rw [stringifyPairs_eq_map, List.map_map]
      exact hnf
    rw [sortedStringify_obj, sortedStringify_obj, sortByKey_congr _ _ hps hns]
  · have hfe : (l₁.filter (fun p => !(p.2.isNull))).filter canonKeep
        = l₁.filter canonKeep := by
      rw [List.filter_filter]
      apply List.filter_congr
      intro p _
      unfold canonKeep
      cases p.2.isNull <;> simp
    unfold canonicalize
    rw [hfe]
  · have hfe : (l₁.filter (fun p => !(p.1 == "signature"))).filter canonKeep
        = l₁.filter canonKeep := by
      rw [List.filter_filter]
      apply List.filter_congr
      intro p _
      unfold canonKeep
      cases hsig : (p.1 == "signature") <;> simp
    unfold canonicalize
    rw [hfe]

/-- C7 (witness): the concrete shuffled map with a `signature` key and a
null entry canonicalizes identically in every stated respect. -/
theorem C7_canonicalize_stable_witness :
    canonicalize c7L1 = canonicalize c7L2 ∧
    canonicalize (c7L1.filter (fun p => !(p.2.isNull))) = canonicalize c7L1 ∧
    canonicalize (c7L1.filter (fun p => !(p.1 == "signature"))) = canonicalize c7L1 :=
  C7_canonicalize_stable c7L1 c7L2
    (List.Perm.swap ("a", Json.num 1) ("b", Json.num 2)
      [("signature", Json.str "x"), ("n", Json.null)])
    (by decide)

/-- C9: when at least one required envelope field is absent, `fromWireDict`
raises `InvalidEnvelopeError` carrying exactly the missing field names, in
strictly ascending sorted order; it succeeds exactly when every required
field is present. -/
theorem C9_fromWireDict_missing_sorted (d : List (String × Json)) (l : List String) :
    (fromWireDict d = .error l →
        l ≠ [] ∧ l.Pairwise (fun a b => strLt a b = true) ∧
        (∀ f, f ∈ l ↔ (f ∈ requiredWireFields ∧ f ∉ d.map Prod.fst))) ∧
    exceptIsOk (fromWireDict d)
      = requiredWireFields.all (fun f => (d.map Prod.fst).contains f) := by
  constructor
  · intro herr
    unfold fromWireDict at herr
    split at herr
    · cases herr
    · rename_i hne
      injection herr with hl
      subst hl
      have hperm := List.perm_insertionSort
        (fun a b : String => strLe a b = true) (missingFields d)
      refine ⟨?_, ?_, ?_⟩
      · intro h0
        rw [h0] at hperm
        have hm0 : missingFields d = [] := hperm.symm.eq_nil
        exact hne (by rw [hm0]; rfl)
      · have hsorted : (List.insertionSort (fun a b : String => strLe a b = true)
            (missingFields d)).Sorted (fun a b : String => strLe a b = true) := by
          haveI : IsTotal String (fun a b : String => strLe a b = true) :=
            ⟨fun a b => charListLe_total a.data b.data⟩
          haveI : IsTrans String (fun a b : String => strLe a b = true) :=
            ⟨fun a b c h1 h2 => charListLe_trans a.data b.data c.data h1 h2⟩
          exact List.sorted_insertionSort _ _
        have hnodup : (missingFields d).Nodup := by
          apply List.Nodup.filter
          decide
        have hnodup2 : (List.insertionSort (fun a b : String => strLe a b = true)
            (missingFields d)).Nodup := (hperm.nodup_iff).mpr hnodup
        have hand := List.Pairwise.and hsorted hnodup2
        exact hand.imp (fun hab => strLt_of_le_of_ne _ _ hab.1 hab.2)
      · intro f
        rw [hperm.mem_iff]
        unfold missingFields
        rw [List.mem_filter]
        constructor
        · rintro ⟨hf1, hf2⟩
          refine ⟨hf1, ?_⟩
          intro hmem
          have hcc : (d.map Prod.fst).contains f = true :=
            List.elem_eq_true_of_mem hmem
          rw [hcc] at hf2
          cases hf2
        · rintro ⟨hf1, hf2⟩
          refine ⟨hf1, ?_⟩
          cases hc : (d.map Prod.fst).contains f
          · rfl
          · exact absurd (List.mem_of_elem_eq_true hc) hf2
  · unfold fromWireDict
    split
    · rename_i hemp
      have hm0 : missingFields d = [] := by
        cases hm : missingFields d with
        | nil => rfl
        | cons q qs => rw [hm] at hemp; cases hemp
      have hall : requiredWireFields.all
          (fun f => (d.map Prod.fst).contains f) = true := by
        rw [List.all_eq_true]
        intro f hf
        by_contra hcf
        have hfm : f ∈ missingFields d := by
          unfold missingFields
          rw [List.mem_filter]
          refine ⟨hf, ?_⟩
          cases hc : (d.map Prod.fst).contains f
          · rfl
          · exact absurd hc hcf
        rw [hm0] at hfm
        cases hfm
      rw [hall]
      rfl
    · rename_i hne
      cases hm : missingFields d with
      | nil => exact absurd (by rw [hm]; rfl) hne
      | cons q qs =>
          have hqmem : q ∈ missingFields d := by
            rw [hm]
            exact List.mem_cons_self q qs
          unfold missingFields at hqmem
          rw [List.mem_filter] at hqmem
          have hall : requiredWireFields.all
              (fun f => (d.map Prod.fst).contains f) = false := by
            cases hallc : requiredWireFields.all
                (fun f => (d.map Prod.fst).contains f)
            · rfl
            · rw [List.all_eq_true] at hallc
              have hq := hallc q hqmem.1
              have hq2 := hqmem.2
              rw [hq] at hq2
              cases hq2
          rw [hall]
          rfl

/-- C9 (witness): the concrete wire dict missing `nonce`, `payload` and
`signature` yields exactly that nonempty, strictly ascending error list. -/
theorem C9_fromWireDict_missing_sorted_witness :
    (["nonce", "payload", "signature"] : List String) ≠ [] ∧
    (["nonce", "payload", "signature"] : List String).Pairwise
      (fun a b => strLt a b = true) ∧
    ("payload" ∈ (["nonce", "payload", "signature"] : List String) ↔
      ("payload" ∈ requiredWireFields ∧ "payload" ∉ c9Dict.map Prod.fst)) :=
  have h := (C9_fromWireDict_missing_sorted c9Dict ["nonce", "payload", "signature"]).1 rfl
  ⟨h.1, h.2.1, h.2.2 "payload"⟩

end UAM
